import Mathlib

/-!
# Verification of the Career Compass job-scraper module

A shallow embedding of `src/job_scraper.py`.  External effects (HTTP GET,
the DuckDuckGo search provider, BeautifulSoup selector queries, the
language-model client, and the `json` library) are modelled as oracle
functions packaged in an `Env`/`Soup` record or passed explicitly; the pure
text-processing logic (the regex-based field extractors, the fallback
cascades, the record assembly in `get_job_details`, `search_jobs` and
`analyze_job_fit`) is translated function-by-function from the source.

Python `re.search` semantics are implemented at the character level for the
exact patterns the module uses: leftmost match (scan over suffixes),
greedy/lazy quantifiers with the backtracking the individual pattern
actually needs, case-insensitive matching where the source passes
`re.IGNORECASE`.  Comments on the individual matchers note where greedy
matching without backtracking is provably equivalent for that pattern.
-/

/-! ## Python string primitives -/

/-- Python `\s` (ASCII range, as produced by the scraped text): space, tab,
newline, carriage return, vertical tab, form feed. -/
def isPySpace (c : Char) : Bool :=
  c == ' ' || (9 ≤ c.toNat && c.toNat ≤ 13)

/-- Python `\w` word character (ASCII): letters, digits, underscore. -/
def isWordChar (c : Char) : Bool :=
  c.isAlphanum || c == '_'

/-- Lowercased character list; used for `re.IGNORECASE` comparisons. -/
def lowerL (l : List Char) : List Char := l.map Char.toLower

/-- Python `str.strip()` on a character list. -/
def stripL (l : List Char) : List Char :=
  ((l.dropWhile isPySpace).reverse.dropWhile isPySpace).reverse

/-- Python `str.strip()`. -/
def pyStrip (s : String) : String := String.mk (stripL s.data)

/-- Python `str.title()`: a cased (alphabetic) character is uppercased when
it follows a non-cased character and lowercased otherwise. -/
def pyTitleAux : Bool → List Char → List Char
  | _, [] => []
  | prevAlpha, c :: cs =>
    if c.isAlpha then
      (if prevAlpha then c.toLower else c.toUpper) :: pyTitleAux true cs
    else c :: pyTitleAux false cs

/-- Python `str.title()`. -/
def pyTitle (s : String) : String := String.mk (pyTitleAux false s.data)

/-- Python `str.split(sep)` for a non-empty separator `s0 :: srest`, on
character lists; splits at each leftmost non-overlapping occurrence.
Recursion is structural on a fuel argument (each step consumes at least
one input character, so `l.length` fuel is always enough — the stated
fuel lemmas below make this precise). -/
def splitOnLAux (s0 : Char) (srest : List Char) : Nat → List Char → List (List Char)
  | _, [] => [[]]
  | 0, _ :: _ => [[]]
  | fuel + 1, c :: cs =>
    if (s0 :: srest).isPrefixOf (c :: cs) then
      [] :: splitOnLAux s0 srest fuel (cs.drop srest.length)
    else
      match splitOnLAux s0 srest fuel cs with
      | [] => [[c]]
      | h :: t => (c :: h) :: t

/-- See `splitOnLAux`. -/
def splitOnL (s0 : Char) (srest : List Char) (l : List Char) : List (List Char) :=
  splitOnLAux s0 srest l.length l

/-- Python `str.split(sep)` (non-empty `sep`). -/
def pySplit (s : String) (sep : String) : List String :=
  match sep.data with
  | [] => [s]
  | s0 :: srest => (splitOnL s0 srest s.data).map String.mk

/-- Python substring membership test `sub in s` (`sub` matched literally). -/
def occursB (w : List Char) : List Char → Bool
  | [] => w.isEmpty
  | c :: cs => w.isPrefixOf (c :: cs) || occursB w cs

/-! ## Regex matching primitives -/

/-- Match a literal pattern case-insensitively at the head of the input,
returning the rest of the input (`re.IGNORECASE` literal). -/
def matchCI : List Char → List Char → Option (List Char)
  | [], s => some s
  | _, [] => none
  | p :: ps, c :: cs => if p.toLower = c.toLower then matchCI ps cs else none

/-- Match a literal pattern case-sensitively at the head of the input. -/
def matchStr : List Char → List Char → Option (List Char)
  | [], s => some s
  | _, [] => none
  | p :: ps, c :: cs => if p = c then matchStr ps cs else none

/-- The `re.search` driver: try the position matcher at every position, leftmost
position first (the final empty suffix included). -/
def searchSuffixes {α : Type} (m : List Char → Option α) : List Char → Option α
  | [] => m []
  | c :: cs =>
    match m (c :: cs) with
    | some a => some a
    | none => searchSuffixes m cs

/-- First alternative of an ordered, case-insensitive literal alternation
matching at the head of the input; returns the consumed input characters
(original case) and the rest. -/
def matchFirstCI : List String → List Char → Option (List Char × List Char)
  | [], _ => none
  | w :: ws, s =>
    match matchCI w.data s with
    | some r => some (s.take w.data.length, r)
    | none => matchFirstCI ws s

/-- The `\s*` (greedy whitespace run): returns the run and the rest. -/
def pWs (s : List Char) : List Char × List Char :=
  let w := s.takeWhile isPySpace
  (w, s.drop w.length)

/-- The `\s*([^X]+)` with the backtracking Python applies: the greedy `\s*` run
gives characters back one at a time until the (greedy, non-empty) negated
class can match.  `excl` is the class complement; nothing follows the
group in the patterns that use this, so the first boundary (largest
whitespace prefix) at which the class is non-empty wins.  Returns the
group and the rest of the input after it. -/
def wsBtClassAt (excl : Char → Bool) (s : List Char) : Nat → Option (List Char × List Char)
  | 0 =>
    let run := s.takeWhile (fun c => !excl c)
    if run.isEmpty then none else some (run, s.drop run.length)
  | k + 1 =>
    let tail := s.drop (k + 1)
    let run := tail.takeWhile (fun c => !excl c)
    if run.isEmpty then wsBtClassAt excl s k
    else some (run, s.drop (k + 1 + run.length))

/-- See `wsBtClassAt`; starts at the full `\s*` run. -/
def wsBtClass (excl : Char → Bool) (s : List Char) : Option (List Char × List Char) :=
  wsBtClassAt excl s (s.takeWhile isPySpace).length

/-- Lazy group `(.*?)` (with `re.DOTALL`) up to an ordered case-insensitive
terminator alternation: the group is the shortest prefix after which a
terminator matches; fails when no terminator occurs.  Returns the group. -/
def lazyUntil (terms : List String) : List Char → Option (List Char)
  | [] => none
  | c :: cs =>
    match matchFirstCI terms (c :: cs) with
    | some _ => some []
    | none => (lazyUntil terms cs).map (fun g => c :: g)

/-! ## Search adapter: company, domain, location -/

/-- The `extract_company_from_title` (job_scraper.py:61-66): `title.split(" - ")`,
second element stripped when present, else the sentinel. -/
def extract_company_from_title (title : String) : String :=
  match pySplit title " - " with
  | _ :: p1 :: _ => pyStrip p1
  | _ => "Unknown Company"

/-- Spec-side definition, following the spec text for comparison: the
company is the " - "-delimited *trailing* segment of the title. -/
def companySpecTrailing (title : String) : String :=
  let parts := pySplit title " - "
  if parts.length > 1 then pyStrip (parts.getLastD "") else "Unknown Company"

/-- Position matcher for `https?://(?:www\.)?([^/]+)` (case-sensitive; no
flag is passed in the source).  The optional `s` and `www.` are greedy; if
`www.` is consumed but the non-empty `[^/]+` class then fails, Python
backtracks and re-reads `www.` as class content, which the fallback branch
reproduces. -/
def pDomainAt (s : List Char) : Option (List Char) :=
  match matchStr "http".data s with
  | none => none
  | some r1 =>
    let r2 := match r1 with | 's' :: rest => rest | _ => r1
    match matchStr "://".data r2 with
    | none => none
    | some r3 =>
      let cls := fun (x : List Char) =>
        let run := x.takeWhile (fun c => c ≠ '/')
        if run.isEmpty then none else some run
      match matchStr "www.".data r3 with
      | some r4 =>
        match cls r4 with
        | some g => some g
        | none => cls r3
      | none => cls r3

/-- The `extract_domain` (job_scraper.py:68-77): first match of the pattern
above, else "Unknown Source". -/
def extract_domain (url : String) : String :=
  if url ≠ "" then
    match searchSuffixes pDomainAt url.data with
    | some g => String.mk g
    | none => "Unknown Source"
  else "Unknown Source"

/-- The location alternation `remote|hybrid|on-site`. -/
def locAltWords : List String := ["remote", "hybrid", "on-site"]

/-- The `[A-Za-z\s,]` class of the second location pattern. -/
def locClassChar (c : Char) : Bool := c.isAlpha || isPySpace c || c == ','

/-- Backtracking tail of `in\s+([A-Za-z\s,]+(?:remote|hybrid|on-site))`:
after `in`, the `\s+` and class runs jointly cover a contiguous class-char
run; the alternation is tried at boundary `j` from the end of the maximal
class run downwards (Python backtracks the greedy class first, then the
greedy `\s+`).  The group starts after `min(wsRun, j-1)` whitespace
characters.  `r1` is the input after `in`. -/
def locP2Bt (r1 : List Char) (w : Nat) : Nat → Option (List Char)
  | 0 => none
  | j + 1 =>
    if j + 1 < 2 then none
    else
      match matchFirstCI locAltWords (r1.drop (j + 1)) with
      | some (alt, _) =>
        let wsC := min w j
        some ((r1.drop wsC).take (j + 1 - wsC) ++ alt)
      | none => locP2Bt r1 w j

/-- Position matcher for `in\s+([A-Za-z\s,]+(?:remote|hybrid|on-site))`
(IGNORECASE), returning group 1. -/
def pLocP2At (s : List Char) : Option (List Char) :=
  match matchCI "in".data s with
  | none => none
  | some r1 =>
    let w := r1.takeWhile isPySpace
    if w.isEmpty then none
    else locP2Bt r1 w.length (r1.takeWhile locClassChar).length

/-- Position matcher for `location:?\s*([^\.;]+)` (IGNORECASE): literal
`location`, greedy optional colon, then `\s*` feeding a non-empty class
that excludes only `.` and `;`. -/
def pLocP1At (s : List Char) : Option (List Char) :=
  match matchCI "location".data s with
  | none => none
  | some r1 =>
    let excl := fun (c : Char) => c == '.' || c == ';'
    match r1 with
    | ':' :: rest =>
      (match wsBtClass excl rest with
       | some (g, _) => some g
       | none => (wsBtClass excl r1).map (fun p => p.1))
    | _ => (wsBtClass excl r1).map (fun p => p.1)

/-- The `extract_location` (job_scraper.py:79-104). -/
def extract_location (title : String) (snippet : String) (default_location : String) : String :=
  let title_location :=
    if occursB " - ".data title.data ∧ occursB " in ".data title.data then
      match pySplit title " - " with
      | _ :: p1 :: _ =>
        if occursB " in ".data p1.data then
          pyStrip ((pySplit p1 " in ").getD 1 "")
        else ""
      | _ => ""
    else ""
  let snippet_location :=
    match searchSuffixes pLocP1At snippet.data with
    | some g => pyStrip (String.mk g)
    | none =>
      match searchSuffixes pLocP2At snippet.data with
      | some g => pyStrip (String.mk g)
      | none =>
        match searchSuffixes (fun s => (matchFirstCI locAltWords s).map (fun p => p.1)) snippet.data with
        | some g => pyStrip (String.mk g)
        | none => ""
  -- `title_location or snippet_location or default_location or "Not specified"`
  if title_location ≠ "" then title_location
  else if snippet_location ≠ "" then snippet_location
  else if default_location ≠ "" then default_location
  else "Not specified"

/-! ## Salary extractor -/

/-- The `\d{1,3}` greedy.  No backtracking is needed anywhere `\d{1,3}` occurs
in the salary patterns: every continuation after a shortened digit run
would have to match at a digit character and none can. -/
def pDigits13 (s : List Char) : Option (List Char × List Char) :=
  let ds := (s.takeWhile Char.isDigit).take 3
  if ds.isEmpty then none else some (ds, s.drop ds.length)

/-- The `(?:,\d{3})*` greedy repetitions. -/
def pCommaGroups : List Char → List Char × List Char
  | ',' :: a :: b :: c :: rest =>
    if a.isDigit && b.isDigit && c.isDigit then
      let (m, r) := pCommaGroups rest
      (',' :: a :: b :: c :: m, r)
    else ([], ',' :: a :: b :: c :: rest)
  | s => ([], s)

/-- The `(?:\.\d{2})?` greedy optional. -/
def pDecPart : List Char → List Char × List Char
  | '.' :: a :: b :: rest =>
    if a.isDigit && b.isDigit then (['.', a, b], rest)
    else ([], '.' :: a :: b :: rest)
  | s => ([], s)

/-- The `\d{1,3}(?:,\d{3})*(?:\.\d{2})?`. -/
def pNumber (s : List Char) : Option (List Char × List Char) :=
  match pDigits13 s with
  | none => none
  | some (d, r1) =>
    let (cg, r2) := pCommaGroups r1
    let (dc, r3) := pDecPart r2
    some (d ++ cg ++ dc, r3)

/-- The `\$` followed by a number. -/
def pDollarNum : List Char → Option (List Char × List Char)
  | c :: rest => if c = '$' then (pNumber rest).map (fun p => ('$' :: p.1, p.2)) else none
  | [] => none

/-- The `(?:\s*-\s*\$num)?` greedy optional range tail of salary pattern 1. -/
def pSalRange1 (s : List Char) : List Char × List Char :=
  let (w1, r1) := pWs s
  match r1 with
  | '-' :: r2 =>
    let (w2, r3) := pWs r2
    (match pDollarNum r3 with
     | some (m, r4) => (w1 ++ '-' :: (w2 ++ m), r4)
     | none => ([], s))
  | _ => ([], s)

/-- The per-period words, in the source's alternation order. -/
def periodWords : List String := ["year", "yr", "month", "mo", "hour", "hr", "annum"]

/-- The `(?:\s*(?:per|a|/)\s*(?:year|yr|month|mo|hour|hr|annum))?`: each unit
alternative is tried through to completion (Python backtracks into the
alternation when the period word fails). -/
def pSalUnitAlt (w1 : List Char) (s : List Char) : List String → Option (List Char × List Char)
  | [] => none
  | u :: us =>
    match matchCI u.data s with
    | some r2 =>
      let (w2, r3) := pWs r2
      (match matchFirstCI periodWords r3 with
       | some (pw, r4) => some (w1 ++ s.take u.data.length ++ w2 ++ pw, r4)
       | none => pSalUnitAlt w1 s us)
    | none => pSalUnitAlt w1 s us

/-- Position matcher for salary pattern 1 (job_scraper.py:109), group 1 =
the whole match. -/
def pSalary1At (s : List Char) : Option (List Char) :=
  match pDollarNum s with
  | none => none
  | some (m1, r1) =>
    let (m2, r2) := pSalRange1 r1
    let (w, r3) := pWs r2
    match pSalUnitAlt w r3 ["per", "a", "/"] with
    | some (mu, _) => some (m1 ++ m2 ++ mu)
    | none => some (m1 ++ m2)

/-- Currency codes of salary patterns 2 and 3, in source order. -/
def salCodes : List String := ["USD", "EUR", "GBP", "AUD", "CAD"]

/-- The `(?:USD|EUR|GBP|AUD|CAD)\s*\d{1,3}(?:,\d{3})*(?:\.\d{2})?`. -/
def pCodeNum (s : List Char) : Option (List Char × List Char) :=
  match matchFirstCI salCodes s with
  | none => none
  | some (mc, r1) =>
    let (w, r2) := pWs r1
    match pNumber r2 with
    | some (mn, r3) => some (mc ++ w ++ mn, r3)
    | none => none

/-- Position matcher for salary pattern 2 (job_scraper.py:110). -/
def pSalary2At (s : List Char) : Option (List Char) :=
  match pCodeNum s with
  | none => none
  | some (m1, r1) =>
    let (w1, r2) := pWs r1
    match r2 with
    | '-' :: r3 =>
      let (w2, r4) := pWs r3
      (match pCodeNum r4 with
       | some (m2, _) => some (m1 ++ w1 ++ '-' :: (w2 ++ m2))
       | none => some m1)
    | _ => some m1

/-- The `\d{1,3}(?:,\d{3})*(?:\.\d{2})?\s*(?:USD|EUR|GBP|AUD|CAD)`. -/
def pNumCode (s : List Char) : Option (List Char × List Char) :=
  match pNumber s with
  | none => none
  | some (mn, r1) =>
    let (w, r2) := pWs r1
    match matchFirstCI salCodes r2 with
    | some (mc, r3) => some (mn ++ w ++ mc, r3)
    | none => none

/-- Position matcher for salary pattern 3 (job_scraper.py:111). -/
def pSalary3At (s : List Char) : Option (List Char) :=
  match pNumCode s with
  | none => none
  | some (m1, r1) =>
    let (w1, r2) := pWs r1
    match r2 with
    | '-' :: r3 =>
      let (w2, r4) := pWs r3
      (match pNumCode r4 with
       | some (m2, _) => some (m1 ++ w1 ++ '-' :: (w2 ++ m2))
       | none => some m1)
    | _ => some m1

/-- The `extract_salary` (job_scraper.py:106-119): first match of the three
patterns in priority order, else the sentinel. -/
def extract_salary (text : String) : String :=
  match searchSuffixes pSalary1At text.data with
  | some g => String.mk g
  | none =>
    match searchSuffixes pSalary2At text.data with
    | some g => String.mk g
    | none =>
      match searchSuffixes pSalary3At text.data with
      | some g => String.mk g
      | none => "Salary not specified"

/-! ## Job-type extractor -/

/-- Position matcher for `(?:Job|Employment) Type:?\s*([^\n\.;]+)`
(IGNORECASE).  The optional colon is greedy; when the colon is consumed but
the class fails, Python re-reads the colon as class content (a colon is not
excluded), which the fallback branch reproduces.  Returns group 1
(before the `.strip()` the caller applies). -/
def pJobTypeAAt (s : List Char) : Option (List Char) :=
  match matchFirstCI ["job", "employment"] s with
  | none => none
  | some (_, r1) =>
    match matchCI " type".data r1 with
    | none => none
    | some r2 =>
      let excl := fun (c : Char) => c == '\n' || c == '.' || c == ';'
      match r2 with
      | ':' :: rest =>
        (match wsBtClass excl rest with
         | some (g, _) => some g
         | none => (wsBtClass excl r2).map (fun p => p.1))
      | _ => (wsBtClass excl r2).map (fun p => p.1)

/-- The `Full[- ]Time` / `Part[- ]Time` style alternative: the leading word,
a `-` or space, then `time` (IGNORECASE); returns the consumed input. -/
def pFTWord (w : String) (s : List Char) : Option (List Char) :=
  match matchCI w.data s with
  | none => none
  | some r1 =>
    match r1 with
    | c :: r2 =>
      if c = '-' ∨ c = ' ' then
        (match matchCI "time".data r2 with
         | some _ => some (s.take (w.data.length + 1 + 4))
         | none => none)
      else none
    | [] => none

/-- Position matcher for the canonical-term alternation
`(Full[- ]Time|Part[- ]Time|Contract|Temporary|Freelance|Permanent|Remote)`
(IGNORECASE), alternatives in source order; group 1 = the matched input
text in its original capitalization. -/
def pJobTypeBAt (s : List Char) : Option (List Char) :=
  match pFTWord "full" s with
  | some g => some g
  | none =>
    match pFTWord "part" s with
    | some g => some g
    | none =>
      (matchFirstCI ["contract", "temporary", "freelance", "permanent", "remote"] s).map
        (fun p => p.1)

/-- The `\b kw \b` at one position: the keyword matches case-insensitively and
both ends sit on word boundaries. -/
def boundaryMatch (kw : List Char) (s : List Char) : Bool :=
  match matchCI kw s with
  | some [] => true
  | some (c :: _) => !isWordChar c
  | none => false

/-- Whole-word scan (`re.search(r'\b kw \b', …, IGNORECASE)` as a Boolean):
`prev` is the character before the current position. -/
def wordScanAux (kw : List Char) : Option Char → List Char → Bool
  | _, [] => false
  | prev, c :: cs =>
    ((match prev with
      | none => true
      | some p => !isWordChar p) && boundaryMatch kw (c :: cs)) || wordScanAux kw (some c) cs

/-- Whole-word containment of `kw` in `t`. -/
def wordScan (kw : String) (t : String) : Bool := wordScanAux kw.data none t.data

/-- Keyword list of the job-type whole-word fallback (job_scraper.py:392). -/
def job_type_keywords : List String :=
  ["full-time", "part-time", "contract", "temporary", "freelance", "permanent", "remote", "hybrid"]

/-- First keyword of the list present as a whole word. -/
def firstWordKw : List String → String → Option String
  | [], _ => none
  | k :: ks, t => if wordScan k t then some k else firstWordKw ks t

/-- The `extract_job_type` (job_scraper.py:379-397). -/
def extract_job_type (text_content : String) : String :=
  match searchSuffixes pJobTypeAAt text_content.data with
  | some g => pyStrip (String.mk g)
  | none =>
    match searchSuffixes pJobTypeBAt text_content.data with
    | some g => pyStrip (String.mk g)
    | none =>
      match firstWordKw job_type_keywords text_content with
      | some kw => pyTitle kw
      | none => "Not specified"

/-! ## Section/bullet machinery shared by description, requirements, benefits -/

/-- Bullet marker characters `[\*\-\•]`. -/
def isBulletMarker (c : Char) : Bool := c == '*' || c == '-' || c == '•'

/-- Class complement of the bullet pattern `[^\n\*\-\•]`. -/
def bulletExcl (c : Char) : Bool := c == '\n' || c == '*' || c == '-' || c == '•'

/-- The `re.findall(r"[\*\-\•]\s*([^\n\*\-\•]+)", …)`: collect group 1 of each
non-overlapping match, scanning left to right and resuming after each
match.  Fuel-structural; `wsBtClass_rest_le` shows each successful match
leaves a rest no longer than the input, and a character is consumed per
step, so `l.length` fuel suffices. -/
def bulletScanAux : Nat → List Char → List (List Char)
  | _, [] => []
  | 0, _ :: _ => []
  | fuel + 1, c :: cs =>
    if isBulletMarker c then
      match wsBtClass bulletExcl cs with
      | some (g, rest) => g :: bulletScanAux fuel rest
      | none => bulletScanAux fuel cs
    else bulletScanAux fuel cs

/-- See `bulletScanAux`. -/
def bulletScan (l : List Char) : List (List Char) := bulletScanAux l.length l

/-- Bullet/line cascade applied to a (truthy) section: bullet groups when
any exist (stripped, empties dropped), else newline-split lines whose
stripped length exceeds `minLen` (job_scraper.py:353-361 and 417-425). -/
def sectionListItems (minLen : Nat) (sec : String) : List String :=
  let bulletsRaw := bulletScan sec.data
  if bulletsRaw ≠ [] then
    (bulletsRaw.map (fun b => pyStrip (String.mk b))).filter (fun x => x ≠ "")
  else
    ((splitOnL '\n' [] sec.data).map (fun l => pyStrip (String.mk l))).filter
      (fun l => minLen < l.length)

/-- Section-header pattern `LABELs?[:\n](.*?)(?:TERM|…)` (IGNORECASE,
DOTALL): the label, an optional greedy `s` when `optS` (giving the `s`
back cannot help, since `[:\n]` never matches `s`), a colon or newline,
then the lazy group up to the first terminator.  Returns group 1. -/
def pSecAt (label : List Char) (optS : Bool) (terms : List String) (s : List Char) :
    Option (List Char) :=
  match matchCI label s with
  | none => none
  | some r1 =>
    let r2 :=
      if optS then
        match r1 with
        | c :: rest => if c.toLower = 's' then rest else r1
        | [] => r1
      else r1
    match r2 with
    | c :: r3 => if c = ':' ∨ c = '\n' then lazyUntil terms r3 else none
    | [] => none

/-- Python `list(dict.fromkeys(lst))`: deduplicate keeping the first
occurrence of each element, preserving order.  Fuel-structural; filtering
never lengthens the tail, so `l.length` fuel suffices. -/
def dedupFirstAux : Nat → List String → List String
  | _, [] => []
  | 0, _ :: _ => []
  | fuel + 1, a :: l => a :: dedupFirstAux fuel (l.filter (fun x => x ≠ a))

/-- See `dedupFirstAux`. -/
def dedupFirst (l : List String) : List String := dedupFirstAux l.length l

/-! ## Requirements extractor -/

/-- Terminators of the requirements section patterns. -/
def reqTerms : List String := ["benefits", "apply", "about us", "company"]

/-- Fallback keywords (job_scraper.py:365-368). -/
def skill_keywords : List String :=
  ["experience with", "proficient in", "knowledge of", "degree in",
   "years of experience", "background in", "skill", "ability to"]

/-- Position matcher for `kw[^.]+\.` (IGNORECASE): the keyword, a greedy
non-empty run of non-period characters (which necessarily stops at the
first period), then the period.  Returns (whole match, rest). -/
def pKwSentence (kw : List Char) (s : List Char) : Option (List Char × List Char) :=
  match matchCI kw s with
  | none => none
  | some r =>
    let kwm := s.take (s.length - r.length)
    let run := r.takeWhile (fun c => c ≠ '.')
    if run.isEmpty then none
    else
      match r.drop run.length with
      | '.' :: rest2 => some (kwm ++ run ++ ['.'], rest2)
      | _ => none

/-- The `re.finditer(r"kw[^.]+\.", …, IGNORECASE)`: all non-overlapping
matches, left to right.  Fuel-structural; `pKwSentence_rest_lt` shows the
rest after a match is strictly shorter, so `l.length` fuel suffices. -/
def kwSentenceScanAux (kw : List Char) : Nat → List Char → List (List Char)
  | _, [] => []
  | 0, _ :: _ => []
  | fuel + 1, c :: cs =>
    match pKwSentence kw (c :: cs) with
    | some (g, rest) => g :: kwSentenceScanAux kw fuel rest
    | none => kwSentenceScanAux kw fuel cs

/-- See `kwSentenceScanAux`. -/
def kwSentenceScan (kw : List Char) (l : List Char) : List (List Char) :=
  kwSentenceScanAux kw l.length l

/-! ## Requirements and benefits extractors -/

/-- The parsed-markup oracle: what BeautifulSoup provides to the module.
`selectText sel` is `select_one(sel).get_text(strip=True)` when a (truthy)
tag matches, `none` otherwise; `titleText` is the text of the `<title>`
tag when present; `selectHref sel` is the `href` attribute of the first
tag matched by `sel` (`none` covers both "no tag" and the selector error
the source swallows). -/
structure Soup where
  selectText : String → Option String
  titleText : Option String
  selectHref : String → Option String

/-- The `extract_job_requirements` (job_scraper.py:335-377).  The `soup`
parameter is accepted and unused, exactly as in the source.  A section
whose stripped group is empty is falsy in Python, so it is conflated with
"no section" downstream, as the `≠ ""` test reflects. -/
def extract_job_requirements (soup : Soup) (text_content : String) : List String :=
  let req_section :=
    match searchSuffixes (pSecAt "requirement".data true reqTerms) text_content.data with
    | some g => pyStrip (String.mk g)
    | none =>
      match searchSuffixes (pSecAt "qualification".data true reqTerms) text_content.data with
      | some g => pyStrip (String.mk g)
      | none =>
        match searchSuffixes (pSecAt "skills".data false reqTerms) text_content.data with
        | some g => pyStrip (String.mk g)
        | none => ""
  let requirements := if req_section ≠ "" then sectionListItems 15 req_section else []
  let requirements :=
    if requirements = [] then
      skill_keywords.flatMap (fun kw =>
        (kwSentenceScan kw.data text_content.data).map (fun g => pyStrip (String.mk g)))
    else requirements
  (dedupFirst requirements).take 10

/-- Terminators of the benefits section patterns. -/
def benTerms : List String := ["apply", "about us", "company"]

/-- Benefit keyword list (job_scraper.py:429-432). -/
def benefit_keywords : List String :=
  ["health insurance", "dental insurance", "vision insurance", "401k", "retirement",
   "paid time off", "pto", "vacation", "remote work", "flexible", "bonus"]

/-- The `extract_benefits` (job_scraper.py:399-440). -/
def extract_benefits (text_content : String) : List String :=
  let benefit_section :=
    match searchSuffixes (pSecAt "benefits".data false benTerms) text_content.data with
    | some g => pyStrip (String.mk g)
    | none =>
      match searchSuffixes (pSecAt "perks".data false benTerms) text_content.data with
      | some g => pyStrip (String.mk g)
      | none =>
        match searchSuffixes (pSecAt "what we offer".data false benTerms) text_content.data with
        | some g => pyStrip (String.mk g)
        | none => ""
  let benefits := if benefit_section ≠ "" then sectionListItems 10 benefit_section else []
  let benefits :=
    if benefits = [] then
      (benefit_keywords.filter (fun kw => wordScan kw text_content)).map pyTitle
    else benefits
  (dedupFirst benefits).take 8

/-! ## Description extractor -/

/-- Selector cascade of the description extractor (job_scraper.py:299-306). -/
def descSelectors : List String :=
  ["div.job-description", "div.description", "#job-description", ".jobSectionHeader",
   "[data-testid=\x27jobDescriptionText\x27]", ".description__text"]

/-- First selector that matches a tag wins and the loop breaks, even when
that tag's (stripped) text is empty. -/
def selectorFirst (soup : Soup) : List String → Option String
  | [] => none
  | sel :: rest =>
    match soup.selectText sel with
    | some t => some t
    | none => selectorFirst soup rest

/-- Position matcher for
`(?:Job|Position) Description[:\n](.*?)(?:Requirements|Qualifications|Responsibilities|About)`
(IGNORECASE, DOTALL), group 1. -/
def pDescPat1At (s : List Char) : Option (List Char) :=
  match matchFirstCI ["job", "position"] s with
  | none => none
  | some (_, r1) =>
    match matchCI " description".data r1 with
    | none => none
    | some r2 =>
      match r2 with
      | c :: r3 =>
        if c = ':' ∨ c = '\n' then
          lazyUntil ["requirements", "qualifications", "responsibilities", "about"] r3
        else none
      | [] => none

/-- Position matcher for
`About the job[:\n](.*?)(?:Requirements|Qualifications|Responsibilities)`, group 1. -/
def pDescPat2At (s : List Char) : Option (List Char) :=
  match matchCI "about the job".data s with
  | none => none
  | some r2 =>
    match r2 with
    | c :: r3 =>
      if c = ':' ∨ c = '\n' then
        lazyUntil ["requirements", "qualifications", "responsibilities"] r3
      else none
    | [] => none

/-- Position matcher for
`Overview[:\n](.*?)(?:Requirements|Qualifications|Responsibilities)`, group 1. -/
def pDescPat3At (s : List Char) : Option (List Char) :=
  match matchCI "overview".data s with
  | none => none
  | some r2 =>
    match r2 with
    | c :: r3 =>
      if c = ':' ∨ c = '\n' then
        lazyUntil ["requirements", "qualifications", "responsibilities"] r3
      else none
    | [] => none

/-- The `extract_job_description` (job_scraper.py:293-333).  A selector hit
whose text is empty, or a regex group that strips to empty, is falsy in
Python, so each stage falls through on the empty string exactly as the
`= ""` tests express; the regex stage is only reached when the selector
stage produced nothing truthy, and only its first matching pattern is
consulted. -/
def extract_job_description (soup : Soup) (text_content : String) : String :=
  let d1 :=
    match selectorFirst soup descSelectors with
    | some t => t
    | none => ""
  let d2 :=
    if d1 = "" then
      match searchSuffixes pDescPat1At text_content.data with
      | some g => pyStrip (String.mk g)
      | none =>
        match searchSuffixes pDescPat2At text_content.data with
        | some g => pyStrip (String.mk g)
        | none =>
          match searchSuffixes pDescPat3At text_content.data with
          | some g => pyStrip (String.mk g)
          | none => ""
    else d1
  if d2 = "" then String.mk (text_content.data.take 500) ++ "..." else d2

/-! ## Application link extractor -/

/-- Selector cascade of the application-link extractor
(job_scraper.py:445-452). -/
def apply_selectors : List String :=
  ["a.apply-button", "a.job-apply", "a[data-automation=\x27job-detail-apply\x27]",
   "a:contains(\x27Apply\x27)", "a.btn-apply", ".jobsearch-IndeedApplyButton"]

/-- The selector loop: a button with a truthy (non-empty) `href` returns
it; a missing button, a raised selector error (swallowed in the source)
or a falsy `href` all continue. -/
def applyLoop (soup : Soup) : List String → String → String
  | [], d => d
  | sel :: rest, d =>
    match soup.selectHref sel with
    | some h => if h ≠ "" then h else applyLoop soup rest d
    | none => applyLoop soup rest d

/-- The `extract_application_link` (job_scraper.py:442-463). -/
def extract_application_link (soup : Soup) (default_url : String) : String :=
  applyLoop soup apply_selectors default_url

/-! ## get_job_details: fetch plumbing and keyword fallback -/

/-- Terminator attempt at class boundary `j` for the fallback pattern
`(?:^|\n|\s)(kw[^\.;:]*(?:\.|\n|$))` in `get_job_details`
(job_scraper.py:243): the alternatives `\.`, `\n`, `$` in order.  Without
`re.MULTILINE`, `$` matches only at the true end here, since a newline
one position before the end is taken first by the `\n` alternative.
`kwm` is the already-matched keyword text, `r` the input after it;
returns (group 1, rest after the match). -/
def gjdTryAt (kwm r : List Char) (j : Nat) : Option (List Char × List Char) :=
  match r.drop j with
  | '.' :: r2 => some (kwm ++ r.take j ++ ['.'], r2)
  | '\n' :: r2 => some (kwm ++ r.take j ++ ['\n'], r2)
  | [] => some (kwm ++ r.take j, [])
  | _ => none

/-- Greedy class `[^\.;:]*` with backtracking: boundaries tried from the
maximal run length downwards. -/
def gjdTermBt (kwm r : List Char) : Nat → Option (List Char × List Char)
  | 0 => gjdTryAt kwm r 0
  | j + 1 =>
    match gjdTryAt kwm r (j + 1) with
    | some x => some x
    | none => gjdTermBt kwm r j

/-- Body matcher `kw[^\.;:]*(?:\.|\n|$)` (IGNORECASE): returns (group 1,
rest after the match). -/
def pGjdBody (kw : List Char) (s : List Char) : Option (List Char × List Char) :=
  match matchCI kw s with
  | none => none
  | some r =>
    let kwm := s.take (s.length - r.length)
    let run := r.takeWhile (fun c => !(c == '.' || c == ';' || c == ':'))
    gjdTermBt kwm r run.length

/-- Scan positions after the start: the prefix alternation `(?:\n|\s)`
consumes one whitespace character (`\n` is itself a `\s` character, so
the two alternatives coincide), then the body must match.  Matches are
non-overlapping; the scan resumes after each match.  Fuel-structural. -/
def gjdKwScanTailAux (kw : List Char) : Nat → List Char → List (List Char)
  | _, [] => []
  | 0, _ :: _ => []
  | fuel + 1, c :: cs =>
    if isPySpace c then
      match pGjdBody kw cs with
      | some (g, rest) => g :: gjdKwScanTailAux kw fuel rest
      | none => gjdKwScanTailAux kw fuel cs
    else gjdKwScanTailAux kw fuel cs

/-- See `gjdKwScanTailAux`. -/
def gjdKwScanTail (kw : List Char) (l : List Char) : List (List Char) :=
  gjdKwScanTailAux kw l.length l

/-- The `re.finditer` of the pattern `(?:^|\n|\s)(kw[^\.;:]*(?:\.|\n|$))` (IGNORECASE):
at position 0 the zero-width `^` alternative applies first; all later
positions go through the whitespace-consuming alternatives. -/
def gjdKwScan (kw : List Char) (t : List Char) : List (List Char) :=
  match pGjdBody kw t with
  | some (g, rest) => g :: gjdKwScanTail kw rest
  | none => gjdKwScanTail kw t

/-- Keyword list of the requirements fallback inside `get_job_details`
(job_scraper.py:236-239). -/
def requirement_keywords : List String :=
  ["required", "qualification", "skill", "experience", "knowledge",
   "proficiency", "ability", "competency", "education", "degree"]

/-- The `url.split('/')[-1].replace('-', ' ').title()`. -/
def urlJobTitle (url : String) : String :=
  pyTitle (String.mk (((pySplit url "/").getLastD "").data.map
    (fun c => if c = '-' then ' ' else c)))

/-- The generic placeholder requirements (job_scraper.py:255-260). -/
def genericRequirements (job_title : String) : List String :=
  ["Relevant experience in " ++ job_title ++ " or related field",
   "Strong communication skills",
   "Problem-solving abilities",
   "Ability to work effectively in a team"]

/-- The keyword-anchored requirements fallback in `get_job_details`
(job_scraper.py:234-260): per keyword, every match's group 1 stripped and
kept when longer than 10 characters; the first 10 collected entries, or
the generic placeholders when none were found. -/
def keywordFallbackReqs (url : String) (text_content : String) : List String :=
  let potential := requirement_keywords.flatMap (fun kw =>
    ((gjdKwScan kw.data text_content.data).map (fun g => pyStrip (String.mk g))).filter
      (fun r => 10 < r.length))
  if potential ≠ [] then potential.take 10
  else genericRequirements (urlJobTitle url)

/-- A fetched, parsed page: the BeautifulSoup view and the
html2text-normalized text, both produced by external libraries from the
same response body and therefore modelled as oracle data. -/
structure Page where
  soup : Soup
  text_content : String

/-- One result dictionary from the search provider; `.get(key, "")`
defaulting collapses missing keys to the empty string. -/
structure SearchResult where
  title : String
  href : String
  body : String
deriving DecidableEq

/-- The effectful world: `httpGet url agent` is one `requests.get` with
the given User-Agent — `.error ()` a raised request exception, `.ok none`
a response with a non-success status, `.ok (some page)` a 200 response
with its parsed content; `ddgsText query maxResults` is one provider
search — `.error ()` a raised provider exception. -/
structure Env where
  httpGet : String → String → Except Unit (Option Page)
  ddgsText : String → Nat → Except Unit (List SearchResult)

/-- The User-Agent pool (job_scraper.py:133-138). -/
def user_agents : List String :=
  ["Mozilla/5.0 (Windows NT 10.0; Win64; x64) AppleWebKit/537.36 (KHTML, like Gecko) Chrome/91.0.4472.124 Safari/537.36",
   "Mozilla/5.0 (Macintosh; Intel Mac OS X 10_15_7) AppleWebKit/605.1.15 (KHTML, like Gecko) Version/15.0 Safari/605.1.15",
   "Mozilla/5.0 (X11; Linux x86_64) AppleWebKit/537.36 (KHTML, like Gecko) Chrome/92.0.4515.107 Safari/537.36",
   "Mozilla/5.0 (Windows NT 10.0; Win64; x64; rv:90.0) Gecko/20100101 Firefox/90.0"]

/-- The alternate-identity retry loop (job_scraper.py:156-160): try each
remaining agent, stopping at the first status-200 response; a raised
request exception aborts into the enclosing handler; after the loop,
`raise_for_status` raises on the remaining non-success response.  (A
non-200 2xx final response is collapsed into the failure case.) -/
def rotateFetch (env : Env) (url : String) : List String → Option Page
  | [] => none
  | a :: as =>
    match env.httpGet url a with
    | .error _ => none
    | .ok (some p) => some p
    | .ok none => rotateFetch env url as

/-- The primary fetch (job_scraper.py:150-167): the first agent, then the
rotation on a non-success status. -/
def mainFetch (env : Env) (url : String) : Option Page :=
  match user_agents with
  | [] => none
  | a0 :: rest =>
    match env.httpGet url a0 with
    | .error _ => none
    | .ok (some p) => some p
    | .ok none => rotateFetch env url rest

/-- A secondary-recovery fetch (job_scraper.py:207-211): a single attempt
with `user_agents[2]`, used only when it returns status 200; a raised
exception is swallowed by the per-result handler. -/
def altFetch (env : Env) (url : String) : Option Page :=
  match env.httpGet url (user_agents.getD 2 "") with
  | .ok (some p) => some p
  | _ => none

/-- Title/company derivation from the page's title tag
(job_scraper.py:176-186): the `<title>` text split on `" - "`; a missing
or empty-text tag yields neither. -/
def titleCompanyOfSoup (s : Soup) : String × String :=
  match s.titleText with
  | none => ("", "")
  | some txt =>
    if txt = "" then ("", "")
    else
      let parts := pySplit txt " - "
      (pyStrip (parts.headD ""),
       match parts with
       | _ :: p1 :: _ => pyStrip p1
       | _ => "")

/-- Per-result loop of the secondary recovery (job_scraper.py:204-224):
each result is fetched; on success the still-missing field(s) are filled
from it, and the loop breaks once both are non-empty; individual failures
are swallowed and the loop continues. -/
def recoveryLoop (env : Env) : List SearchResult → String → List String → String × List String
  | [], d, r => (d, r)
  | res :: rest, d, r =>
    match altFetch env res.href with
    | none => recoveryLoop env rest d r
    | some page =>
      let d' := if d = "" then extract_job_description page.soup page.text_content else d
      let r' := if r = [] then extract_job_requirements page.soup page.text_content else r
      if d' ≠ "" ∧ r' ≠ [] then (d', r') else recoveryLoop env rest d' r'

/-- The secondary recovery block (job_scraper.py:174-226), entered on the
guard `not description or not requirements`: derive title/company from
the title tag; when a title was found, search
`"{title} job description {company}"` with `max_results=3` and run the
per-result loop; a raised provider exception leaves both values
unchanged. -/
def secondaryRecovery (env : Env) (page : Page) (description : String)
    (requirements : List String) : String × List String :=
  let tc := titleCompanyOfSoup page.soup
  if tc.1 = "" then (description, requirements)
  else
    let search_query :=
      tc.1 ++ " job description" ++ (if tc.2 ≠ "" then " " ++ tc.2 else "")
    match env.ddgsText search_query 3 with
    | .error _ => (description, requirements)
    | .ok alt_results => recoveryLoop env alt_results description requirements

/-- The guard of the secondary recovery (job_scraper.py:174):
`if not description or not requirements:`. -/
def recoveryGuard (description : String) (requirements : List String) : Bool :=
  description = "" ∨ requirements = []

/-- The URL-derived description synthesized when the description is still
empty after recovery (job_scraper.py:229-231). -/
def urlDescSynth (url : String) : String :=
  "This job listing is for a " ++ urlJobTitle url ++
    " position. The full job details and requirements can be accessed on the original job posting."

/-- The structured job record (job_scraper.py:262-270). -/
structure JobDetails where
  description : String
  requirements : List String
  salary : String
  job_type : String
  benefits : List String
  application_link : String
  full_text : String
deriving DecidableEq

/-- The placeholder record returned by the exception handler
(job_scraper.py:273-291). -/
def fallbackJobDetails (url : String) : JobDetails :=
  let job_title := urlJobTitle url
  { description := "This is a job listing for a " ++ job_title ++
      " position. The original job posting contains more detailed information."
    requirements :=
      ["Experience with " ++ job_title ++ " or similar roles",
       "Relevant skills and qualifications",
       "Education requirements as specified in the job posting",
       "Communication and teamwork skills"]
    salary := "Please refer to the original job listing for salary information"
    job_type := "Full-time (refer to original listing for confirmation)"
    benefits := ["Visit the original job listing for complete benefits information"]
    application_link := url
    full_text := "This is a simplified version of the job listing. Please visit the original posting at "
      ++ url ++ " for complete details." }

/-- Description and requirements after primary extraction and (when the
guard fires) secondary recovery — the values at job_scraper.py:228. -/
def descReqsAfterRecovery (env : Env) (page : Page) : String × List String :=
  let description := extract_job_description page.soup page.text_content
  let requirements := extract_job_requirements page.soup page.text_content
  if recoveryGuard description requirements then
    secondaryRecovery env page description requirements
  else (description, requirements)

/-- The `get_job_details` (job_scraper.py:121-291). -/
def get_job_details (env : Env) (url : String) : JobDetails :=
  match mainFetch env url with
  | none => fallbackJobDetails url
  | some page =>
    let text_content := page.text_content
    let dr := descReqsAfterRecovery env page
    let description := if dr.1 = "" then urlDescSynth url else dr.1
    let requirements := if dr.2 = [] then keywordFallbackReqs url text_content else dr.2
    { description := description
      requirements := requirements
      salary := extract_salary text_content
      job_type := extract_job_type text_content
      benefits := extract_benefits text_content
      application_link := extract_application_link page.soup url
      full_text := String.mk (text_content.data.take 5000) }

/-! ## Search adapter -/

/-- One listing stub (job_scraper.py:45-53). -/
structure Listing where
  title : String
  company : String
  url : String
  snippet : String
  source : String
  location : String
  full_details : Option JobDetails
deriving DecidableEq

/-- Listing construction from one provider result (job_scraper.py:44-54). -/
def mkListing (location : String) (r : SearchResult) : Listing :=
  { title := pyStrip ((pySplit r.title " - ").headD "")
    company := extract_company_from_title r.title
    url := r.href
    snippet := r.body
    source := extract_domain r.href
    location := extract_location r.title r.body location
    full_details := none }

/-- The query sent to the provider (job_scraper.py:33-35). -/
def searchQuery (query location : String) : String :=
  query ++ " jobs" ++ (if location ≠ "" then " in " ++ location else "")

/-- The `search_jobs` (job_scraper.py:21-59): any provider exception yields
the empty list; otherwise each result maps to one listing in provider
order. -/
def search_jobs (env : Env) (query : String) (location : String) (num_results : Nat) :
    List Listing :=
  match env.ddgsText (searchQuery query location) num_results with
  | .error _ => []
  | .ok results => results.map (mkListing location)

/-! ## Fit scorer: JSON model and analyze_job_fit -/

/-- JSON values as produced by `json.loads`. -/
inductive JVal where
  | num (n : Int)
  | str (s : String)
  | jbool (b : Bool)
  | jnull
  | arr (elems : List JVal)
  | obj (fields : List (String × JVal))

/-- Leading JSON whitespace skip. -/
def skipWs (s : List Char) : List Char := s.dropWhile isPySpace

/-- JSON string-escape decoding (the basic escapes; `\uXXXX` is outside
the modelled subset). -/
def escChar (e : Char) : Option Char :=
  if e == 'n' then some '\n'
  else if e == 't' then some '\t'
  else if e == 'r' then some '\r'
  else if e == '"' || e == '\\' || e == '/' then some e
  else if e == 'b' then some '\x08'
  else if e == 'f' then some '\x0c'
  else none

/-- JSON string body after the opening quote: content up to the closing
quote, escapes decoded. -/
def parseStrAux : List Char → Option (List Char × List Char)
  | [] => none
  | '"' :: rest => some ([], rest)
  | '\\' :: e :: rest =>
    (escChar e).bind (fun c => (parseStrAux rest).map (fun p => (c :: p.1, p.2)))
  | c :: rest => (parseStrAux rest).map (fun p => (c :: p.1, p.2))

/-- A non-empty digit run as a natural number. -/
def parseIntDigits (s : List Char) : Option (Nat × List Char) :=
  let ds := s.takeWhile Char.isDigit
  if ds.isEmpty then none
  else some (ds.foldl (fun acc c => acc * 10 + (c.toNat - 48)) 0, s.drop ds.length)

mutual

/-- A model of `json.loads` value parsing, fuel-structural.  The subset
covers objects, arrays, strings with basic escapes, integers, booleans
and null — floats, exponents and `\u` escapes are outside the model (the
claims only constrain runs in which parsing succeeds, and every witness
stays inside the subset). -/
def parseVal : Nat → List Char → Option (JVal × List Char)
  | 0, _ => none
  | fuel + 1, s0 =>
    match skipWs s0 with
    | [] => none
    | '"' :: rest => (parseStrAux rest).map (fun p => (JVal.str (String.mk p.1), p.2))
    | 't' :: rest => (matchStr "rue".data rest).map (fun r => (JVal.jbool true, r))
    | 'f' :: rest => (matchStr "alse".data rest).map (fun r => (JVal.jbool false, r))
    | 'n' :: rest => (matchStr "ull".data rest).map (fun r => (JVal.jnull, r))
    | '-' :: rest => (parseIntDigits rest).map (fun p => (JVal.num (-(p.1 : Int)), p.2))
    | '[' :: rest =>
      (match skipWs rest with
       | ']' :: r2 => some (JVal.arr [], r2)
       | _ => parseArrElems fuel rest [])
    | '\x7b' :: rest =>
      (match skipWs rest with
       | '\x7d' :: r2 => some (JVal.obj [], r2)
       | _ => parseObjFields fuel rest [])
    | c :: rest =>
      if c.isDigit then
        (parseIntDigits (c :: rest)).map (fun p => (JVal.num (p.1 : Int), p.2))
      else none

def parseArrElems : Nat → List Char → List JVal → Option (JVal × List Char)
  | 0, _, _ => none
  | fuel + 1, s, acc =>
    match parseVal fuel s with
    | none => none
    | some (v, r1) =>
      match skipWs r1 with
      | ',' :: r2 => parseArrElems fuel r2 (acc ++ [v])
      | ']' :: r2 => some (JVal.arr (acc ++ [v]), r2)
      | _ => none

def parseObjFields : Nat → List Char → List (String × JVal) → Option (JVal × List Char)
  | 0, _, _ => none
  | fuel + 1, s, acc =>
    match skipWs s with
    | '"' :: rest =>
      (match parseStrAux rest with
       | none => none
       | some (key, r1) =>
         match skipWs r1 with
         | ':' :: r2 =>
           (match parseVal fuel r2 with
            | none => none
            | some (v, r3) =>
              match skipWs r3 with
              | ',' :: r4 => parseObjFields fuel r4 (acc ++ [(String.mk key, v)])
              | '\x7d' :: r4 => some (JVal.obj (acc ++ [(String.mk key, v)]), r4)
              | _ => none)
         | _ => none)
    | _ => none

end

/-- The `json.loads`: a single value, trailing whitespace allowed, full
consumption required. -/
def jsonLoads (s : String) : Option JVal :=
  match parseVal (2 * s.data.length + 2) s.data with
  | none => none
  | some (v, rest) => if skipWs rest = [] then some v else none

/-- Index of the first occurrence of `w` in the input. -/
def findSubIdx (w : List Char) : List Char → Option Nat
  | [] => if w.isEmpty then some 0 else none
  | c :: cs =>
    if w.isPrefixOf (c :: cs) then some 0
    else (findSubIdx w cs).map (fun i => i + 1)

/-- Lazy tail of the fenced pattern: the group ends at the first position
from which `\s*` followed by three backticks matches (the whitespace run
before a backtick is unambiguous, so no further backtracking arises). -/
def fenceLazy : List Char → Option (List Char)
  | [] => none
  | c :: cs =>
    if "```".data.isPrefixOf ((c :: cs).dropWhile isPySpace) then some []
    else (fenceLazy cs).map (fun g => c :: g)

/-- Group 1 of `re.search` of the fenced pattern (DOTALL)
(job_scraper.py:519-520).  Only the first occurrence of the opening fence
needs to be tried: any later closing fence would already close the first
one. -/
def fenceExtract (content : String) : Option String :=
  match findSubIdx "```json".data content.data with
  | none => none
  | some i =>
    let after := (content.data.drop (i + 7)).dropWhile isPySpace
    (fenceLazy after).map String.mk

/-- Group 0 of `re.search` of the brace-span pattern (DOTALL)
(job_scraper.py:526-527): from the first opening brace to the last
closing brace after it, when one exists. -/
def braceSpan (content : String) : Option String :=
  match findSubIdx ['\x7b'] content.data with
  | none => none
  | some i =>
    let after := content.data.drop i
    match findSubIdx ['\x7d'] after.reverse with
    | none => none
    | some k =>
      let j := after.length - 1 - k
      if 1 ≤ j then some (String.mk (after.take (j + 1))) else none

/-- The parse-failure fallback analysis (job_scraper.py:532-538). -/
def fallbackParse : JVal :=
  JVal.obj
    [("match_percentage", JVal.num 50),
     ("matching_qualifications", JVal.arr [JVal.str "Unable to parse LLM response"]),
     ("missing_qualifications", JVal.arr [JVal.str "Unable to parse LLM response"]),
     ("resume_improvement_tips", JVal.arr [JVal.str "Unable to parse LLM response"]),
     ("skills_to_develop", JVal.arr [JVal.str "Unable to parse LLM response"])]

/-- The service-failure fallback analysis (job_scraper.py:543-549). -/
def fallbackError : JVal :=
  JVal.obj
    [("match_percentage", JVal.num 0),
     ("matching_qualifications", JVal.arr [JVal.str "Error in analysis"]),
     ("missing_qualifications", JVal.arr [JVal.str "Error in analysis"]),
     ("resume_improvement_tips", JVal.arr [JVal.str "Unable to complete analysis"]),
     ("skills_to_develop", JVal.arr [JVal.str "Unable to complete analysis"])]

/-- The prompt built by `analyze_job_fit` (job_scraper.py:483-511). -/
def mkFitPrompt (job_details : JobDetails) (resume_text : String) : String :=
  let requirements_text :=
    String.intercalate "\n" (job_details.requirements.map (fun req => "- " ++ req))
  "\n        You are an expert career advisor and job match analyzer. Compare the candidate\x27s resume with the job details below.\n        \n        JOB DESCRIPTION:\n        "
    ++ job_details.description
    ++ "\n        \n        JOB REQUIREMENTS:\n        "
    ++ requirements_text
    ++ "\n        \n        CANDIDATE RESUME:\n        "
    ++ resume_text
    ++ "\n        \n        Please analyze how well the candidate\x27s resume matches this job and provide:\n        1. A match percentage (0-100%)\n        2. Key matching qualifications the candidate has\n        3. Important missing qualifications or experience\n        4. Suggestions for how the candidate could improve their resume for this specific role\n        5. 3-5 specific skills the candidate should develop to be a stronger match\n        \n        Format your response as a JSON object with the following keys:\n        - \"match_percentage\": a number from 0-100\n        - \"matching_qualifications\": a list of strings\n        - \"missing_qualifications\": a list of strings\n        - \"resume_improvement_tips\": a list of strings\n        - \"skills_to_develop\": a list of strings\n        "

/-- The `analyze_job_fit` (job_scraper.py:465-549).  `llm` is the
text-generation oracle (prompt to reply content, `.error` a raised
service exception).  A fenced or brace-span extraction whose contents
`json.loads` rejects raises inside the `try`, so it lands in the
exception fallback, exactly as in the source. -/
def analyze_job_fit (job_details : JobDetails) (resume_text : String)
    (llm : String → Except Unit String) : JVal :=
  match llm (mkFitPrompt job_details resume_text) with
  | .error _ => fallbackError
  | .ok content =>
    match fenceExtract content with
    | some s =>
      (match jsonLoads s with
       | some v => v
       | none => fallbackError)
    | none =>
      match braceSpan content with
      | some s =>
        (match jsonLoads s with
         | some v => v
         | none => fallbackError)
      | none => fallbackParse

/-- Dictionary field lookup on a parsed JSON object (later duplicate keys
override earlier ones, as in a Python dict built by `json.loads`). -/
def lookupLast : List (String × JVal) → String → Option JVal
  | [], _ => none
  | (k, v) :: rest, key =>
    match lookupLast rest key with
    | some v2 => some v2
    | none => if k = key then some v else none

/-- Field access `d["key"]` on a `JVal`. -/
def getField (v : JVal) (key : String) : Option JVal :=
  match v with
  | .obj fields => lookupLast fields key
  | _ => none

/-! ## Concrete environments used to evaluate the pipeline -/

/-- A page whose markup matches no selector and has no title tag. -/
def soupEmpty : Soup :=
  { selectText := fun _ => none, titleText := none, selectHref := fun _ => none }

/-- A page whose normalized text is blank (html2text renders an empty
document as bare newlines). -/
def pageBlank : Page := { soup := soupEmpty, text_content := "\n\n" }

def urlBlank : String := "https://jobs.example.com/data-scientist"

/-- Fetching `urlBlank` succeeds with the blank page; every other request
returns a non-success status; the search provider raises. -/
def envBlank : Env :=
  { httpGet := fun u _ => if u = urlBlank then .ok (some pageBlank) else .ok none
    ddgsText := fun _ _ => .error () }

/-- A page whose text repeats one keyword-anchored sentence twice. -/
def pageDupReq : Page :=
  { soup := soupEmpty, text_content := "required abc.\nrequired abc." }

def urlDupReq : String := "https://jobs.example.com/analyst"

/-- Fetching `urlDupReq` succeeds with the repeated-sentence page. -/
def envDupReq : Env :=
  { httpGet := fun u _ => if u = urlDupReq then .ok (some pageDupReq) else .ok none
    ddgsText := fun _ _ => .error () }

/-- A main page with a title tag but no extractable requirements. -/
def soupTitled : Soup :=
  { selectText := fun _ => none, titleText := some "Data Scientist - Acme",
    selectHref := fun _ => none }

def pageMainRec : Page := { soup := soupTitled, text_content := "hello world" }

/-- An alternate page carrying a labelled requirements section. -/
def pageAltRec : Page :=
  { soup := soupEmpty,
    text_content := "Requirements:\n* Five years of Python experience\nApply now" }

def urlMainRec : String := "https://jobs.example.com/ds"

def urlAltRec : String := "https://alt.example.com/1"

/-- Fetching the main URL yields the titled page; the secondary search for
its title yields one result whose page carries the requirements. -/
def envRec : Env :=
  { httpGet := fun u _ =>
      if u = urlMainRec then .ok (some pageMainRec)
      else if u = urlAltRec then .ok (some pageAltRec)
      else .ok none
    ddgsText := fun q n =>
      if q = "Data Scientist job description Acme" ∧ n = 3 then
        .ok [{ title := "t", href := urlAltRec, body := "b" }]
      else .error () }

def resBerlin1 : SearchResult :=
  { title := "Data Scientist - SpreeTech", href := "https://boards.example.com/sds",
    body := "Great role" }

def resBerlin2 : SearchResult :=
  { title := "ML Engineer - Flussdaten", href := "https://jobs.example.org/mle",
    body := "Join us" }

/-- A provider returning exactly two results for one query and raising on
any other. -/
def envBerlin : Env :=
  { httpGet := fun _ _ => .ok none
    ddgsText := fun q n =>
      if q = "Data Scientist jobs in Berlin" ∧ n = 5 then .ok [resBerlin1, resBerlin2]
      else .error () }

/-- A sample job record for exercising the fit scorer. -/
def jdSample : JobDetails :=
  { description := "Build models.", requirements := ["Python"], salary := "Salary not specified",
    job_type := "Remote", benefits := [], application_link := "https://jobs.example.com/x",
    full_text := "Build models." }

/-! ## Notions used to state the claims -/

/-- Case-insensitive substring containment, the sense in which a literal
word "appears in" a text for an IGNORECASE regex. -/
def ciOccurs (w : String) (t : String) : Bool :=
  occursB (lowerL w.data) (lowerL t.data)

/-- A currency marker in the sense of the salary patterns: a dollar sign,
or one of the three-letter currency codes appearing case-insensitively. -/
def hasCurrencyMarker (t : String) : Bool :=
  t.data.contains '$' || salCodes.any (fun w => ciOccurs w t)

/-! # Theorems

## General lemmas about the matching primitives -/

/-- The `matchCI` only shortens the input. -/
theorem matchCI_length_le : ∀ (p s r : List Char), matchCI p s = some r → r.length ≤ s.length := by
  intro p
  induction p with
  | nil => intro s r h; simp [matchCI] at h; simp [h]
  | cons a ps ih =>
    intro s r h
    match s with
    | [] => simp [matchCI] at h
    | c :: cs =>
      simp only [matchCI] at h
      split at h
      · exact Nat.le_trans (ih cs r h) (Nat.le_succ _)
      · exact absurd h (by simp)

/-- The `wsBtClassAt` only shortens the input. -/
theorem wsBtClassAt_rest_le (excl : Char → Bool) (s : List Char) :
    ∀ (k : Nat) (g r : List Char), wsBtClassAt excl s k = some (g, r) → r.length ≤ s.length := by
  intro k
  induction k with
  | zero =>
    intro g r h
    simp only [wsBtClassAt] at h
    split at h
    · exact absurd h (by simp)
    · obtain ⟨-, h2⟩ := Prod.mk.injEq .. ▸ Option.some.injEq .. ▸ h
      subst h2; simp [List.length_drop]
  | succ k ih =>
    intro g r h
    simp only [wsBtClassAt] at h
    split at h
    · exact ih g r h
    · obtain ⟨-, h2⟩ := Prod.mk.injEq .. ▸ Option.some.injEq .. ▸ h
      subst h2; simp [List.length_drop]

/-- See `wsBtClassAt_rest_le`. -/
theorem wsBtClass_rest_le (excl : Char → Bool) (s g r : List Char)
    (h : wsBtClass excl s = some (g, r)) : r.length ≤ s.length :=
  wsBtClassAt_rest_le excl s _ g r h

/-- The rest returned by `pKwSentence` is strictly shorter. -/
theorem pKwSentence_rest_lt (kw s g r : List Char) (h : pKwSentence kw s = some (g, r)) :
    r.length < s.length := by
  simp only [pKwSentence] at h
  split at h
  · exact absurd h (by simp)
  · rename_i r1 hm
    split at h
    · exact absurd h (by simp)
    · split at h
      · rename_i rest2 hdrop
        obtain ⟨-, h2⟩ := Prod.mk.injEq .. ▸ Option.some.injEq .. ▸ h
        subst h2
        have h1 : r1.length ≤ s.length := matchCI_length_le kw s r1 hm
        have h3 : (r1.drop (r1.takeWhile (fun c => c ≠ '.')).length).length = rest2.length + 1 := by
          rw [hdrop]; simp
        have h4 : (r1.takeWhile (fun c => c ≠ '.')).length ≤ r1.length :=
          ( List.takeWhile_prefix _).length_le
        simp only [List.length_drop] at h3
        omega
      · exact absurd h (by simp)

/-- The rest returned by `gjdTryAt` is no longer than its input. -/
theorem gjdTryAt_rest_le (kwm r : List Char) (j : Nat) (g rest : List Char)
    (h : gjdTryAt kwm r j = some (g, rest)) : rest.length ≤ r.length := by
  simp only [gjdTryAt] at h
  split at h
  · rename_i r2 hdrop
    obtain ⟨-, h2⟩ := Prod.mk.injEq .. ▸ Option.some.injEq .. ▸ h
    subst h2
    have := congrArg List.length hdrop
    simp only [List.length_drop, List.length_cons] at this
    omega
  · rename_i r2 hdrop
    obtain ⟨-, h2⟩ := Prod.mk.injEq .. ▸ Option.some.injEq .. ▸ h
    subst h2
    have := congrArg List.length hdrop
    simp only [List.length_drop, List.length_cons] at this
    omega
  · obtain ⟨-, h2⟩ := Prod.mk.injEq .. ▸ Option.some.injEq .. ▸ h
    subst h2
    simp
  · exact absurd h (by simp)

/-- The rest returned by `gjdTermBt` is no longer than its input. -/
theorem gjdTermBt_rest_le (kwm r : List Char) :
    ∀ (j : Nat) (g rest : List Char), gjdTermBt kwm r j = some (g, rest) →
      rest.length ≤ r.length := by
  intro j
  induction j with
  | zero => intro g rest h; exact gjdTryAt_rest_le kwm r 0 g rest h
  | succ j ih =>
    intro g rest h
    simp only [gjdTermBt] at h
    split at h
    · rename_i x hx
      have hx2 : x = (g, rest) := by simpa using h
      subst hx2
      exact gjdTryAt_rest_le kwm r (j + 1) g rest hx
    · exact ih g rest h

/-- The rest returned by `pGjdBody` is no longer than its input. -/
theorem pGjdBody_rest_le (kw s g rest : List Char) (h : pGjdBody kw s = some (g, rest)) :
    rest.length ≤ s.length := by
  simp only [pGjdBody] at h
  split at h
  · exact absurd h (by simp)
  · rename_i r hm
    exact Nat.le_trans (gjdTermBt_rest_le _ r _ g rest h) (matchCI_length_le kw s r hm)

/-- Successful case-insensitive matches decompose the input: a consumed
part that lowercases to the pattern, followed by the rest. -/
theorem matchCI_decomp :
    ∀ (p s r : List Char), matchCI p s = some r →
      ∃ m, m ++ r = s ∧ lowerL m = lowerL p := by
  intro p
  induction p with
  | nil =>
    intro s r h
    simp only [matchCI, Option.some.injEq] at h
    exact ⟨[], by simp [h], rfl⟩
  | cons a ps ih =>
    intro s r h
    match s with
    | [] => simp [matchCI] at h
    | c :: cs =>
      simp only [matchCI] at h
      split at h
      · rename_i hlow
        obtain ⟨m, hm1, hm2⟩ := ih cs r h
        refine ⟨c :: m, by simp [hm1], ?_⟩
        simp only [lowerL, List.map_cons] at hm2 ⊢
        exact by rw [hm2, hlow]
      · exact absurd h (by simp)

/-- Converse of `matchCI_decomp`: an input whose prefix lowercases to the
pattern matches, leaving exactly the rest. -/
theorem matchCI_of_append :
    ∀ (p m r : List Char), lowerL m = lowerL p → matchCI p (m ++ r) = some r := by
  intro p
  induction p with
  | nil =>
    intro m r h
    have hm : m = [] := by
      have := congrArg List.length h
      simp only [lowerL, List.length_map, List.length_nil] at this
      exact List.eq_nil_of_length_eq_zero this
    subst hm; simp [matchCI]
  | cons a ps ih =>
    intro m r h
    match m with
    | [] => simp [lowerL] at h
    | c :: m' =>
      simp only [lowerL, List.map_cons, List.cons.injEq] at h
      simp only [List.cons_append, matchCI]
      rw [if_pos h.1.symm]
      exact ih m' r h.2

/-- A successful suffix search exhibits the matching suffix. -/
theorem searchSuffixes_someE {α : Type} (m : List Char → Option α) :
    ∀ (l : List Char) (a : α), searchSuffixes m l = some a →
      ∃ q s, q ++ s = l ∧ m s = some a := by
  intro l
  induction l with
  | nil => intro a h; exact ⟨[], [], rfl, by simpa [searchSuffixes] using h⟩
  | cons c cs ih =>
    intro a h
    simp only [searchSuffixes] at h
    split at h
    · rename_i b hb
      obtain rfl : b = a := by simpa using h
      exact ⟨[], c :: cs, rfl, hb⟩
    · obtain ⟨q, s, hqs, hm⟩ := ih a h
      exact ⟨c :: q, s, by simp [hqs], hm⟩

/-- If some suffix matches, the search succeeds. -/
theorem searchSuffixes_isSome {α : Type} (m : List Char → Option α) :
    ∀ (l q s : List Char), q ++ s = l → (m s).isSome → (searchSuffixes m l).isSome := by
  intro l
  induction l with
  | nil =>
    intro q s hqs hm
    obtain ⟨rfl, rfl⟩ := List.append_eq_nil.mp hqs
    simpa [searchSuffixes] using hm
  | cons c cs ih =>
    intro q s hqs hm
    simp only [searchSuffixes]
    split
    · simp
    · rename_i hnone
      match q with
      | [] =>
        simp only [List.nil_append] at hqs
        rw [hqs] at hm
        rw [hnone] at hm
        simp at hm
      | c' :: q' =>
        simp only [List.cons_append, List.cons.injEq] at hqs
        exact ih q' s hqs.2 hm

/-- The `occursB` is literal substring occurrence. -/
theorem occursB_iff (w : List Char) :
    ∀ (l : List Char), occursB w l = true ↔ ∃ u v, u ++ w ++ v = l := by
  intro l
  induction l with
  | nil =>
    simp only [occursB, List.isEmpty_iff]
    constructor
    · intro h; exact ⟨[], [], by simp [h]⟩
    · rintro ⟨u, v, huv⟩
      have h1 := List.append_eq_nil.mp huv
      exact (List.append_eq_nil.mp h1.1).2
  | cons c cs ih =>
    simp only [occursB, Bool.or_eq_true]
    constructor
    · rintro (h | h)
      · obtain ⟨t, ht⟩ := List.isPrefixOf_iff_prefix.mp h
        exact ⟨[], t, by simpa using ht⟩
      · obtain ⟨u, v, huv⟩ := ih.mp h
        exact ⟨c :: u, v, by simp [huv]⟩
    · rintro ⟨u, v, huv⟩
      match u with
      | [] =>
        left
        exact List.isPrefixOf_iff_prefix.mpr ⟨v, by simpa using huv⟩
      | c' :: u' =>
        right
        simp only [List.cons_append, List.cons.injEq] at huv
        exact ih.mpr ⟨u', v, huv.2⟩

/-- If the needle never occurs, `findSubIdx` fails. -/
theorem findSubIdx_none (w : List Char) :
    ∀ (l : List Char), occursB w l = false → findSubIdx w l = none := by
  intro l
  induction l with
  | nil =>
    intro h
    simp only [occursB] at h
    simp [findSubIdx, h]
  | cons c cs ih =>
    intro h
    simp only [occursB, Bool.or_eq_false_iff] at h
    simp [findSubIdx, h.1, ih h.2]

/-- A successful alternation match comes from one of its words. -/
theorem matchFirstCI_someE :
    ∀ (ws : List String) (s g r : List Char), matchFirstCI ws s = some (g, r) →
      ∃ w ∈ ws, matchCI w.data s = some r ∧ g = s.take w.data.length := by
  intro ws
  induction ws with
  | nil => intro s g r h; simp [matchFirstCI] at h
  | cons w ws ih =>
    intro s g r h
    simp only [matchFirstCI] at h
    split at h
    · rename_i r' hr
      obtain ⟨hg, hrr⟩ : s.take w.data.length = g ∧ r' = r := by
        simpa using h
      exact ⟨w, by simp, by rw [← hrr]; exact hr, hg.symm⟩
    · obtain ⟨w', hw', hm, hg⟩ := ih s g r h
      exact ⟨w', by simp [hw'], hm, hg⟩

/-- An alternation containing a matching word matches. -/
theorem matchFirstCI_isSome_of_mem :
    ∀ (ws : List String) (w : String) (s : List Char), w ∈ ws →
      (matchCI w.data s).isSome → (matchFirstCI ws s).isSome := by
  intro ws
  induction ws with
  | nil => intro w s hw; simp at hw
  | cons w0 ws ih =>
    intro w s hw hm
    simp only [matchFirstCI]
    split
    · simp
    · rename_i hnone
      rcases List.mem_cons.mp hw with rfl | hw'
      · rw [hnone] at hm; simp at hm
      · exact ih w s hw' hm

/-- Build a case-insensitive occurrence from a match at a suffix. -/
theorem ciOccurs_of_matchCI (w t : String) (q s r : List Char)
    (hq : q ++ s = t.data) (hm : matchCI w.data s = some r) : ciOccurs w t = true := by
  obtain ⟨m, hm1, hm2⟩ := matchCI_decomp w.data s r hm
  show occursB (lowerL w.data) (lowerL t.data) = true
  refine (occursB_iff _ _).mpr ⟨lowerL q, lowerL r, ?_⟩
  have hqt : q ++ m ++ r = t.data := by rw [List.append_assoc, hm1]; exact hq
  calc lowerL q ++ lowerL w.data ++ lowerL r
      = lowerL q ++ lowerL m ++ lowerL r := by rw [hm2]
    _ = lowerL (q ++ m ++ r) := by simp [lowerL]
    _ = lowerL t.data := by rw [hqt]

/-- An occurrence of a word yields an occurrence of any of its
case-insensitive prefixes. -/
theorem ciOccurs_mono (w w' t : String) (v0 : List Char)
    (hp : lowerL w'.data ++ v0 = lowerL w.data) (h : ciOccurs w t = true) :
    ciOccurs w' t = true := by
  obtain ⟨u, v, huv⟩ := (occursB_iff _ _).mp h
  show occursB (lowerL w'.data) (lowerL t.data) = true
  refine (occursB_iff _ _).mpr ⟨u, v0 ++ v, ?_⟩
  rw [← huv, ← hp]
  simp [List.append_assoc]

/-- An occurrence produces a position at which the word matches. -/
theorem matchCI_isSome_of_occurs (w t : String) (h : ciOccurs w t = true) :
    ∃ q s, q ++ s = t.data ∧ (matchCI w.data s).isSome := by
  obtain ⟨u, v, huv⟩ := (occursB_iff _ _).mp h
  refine ⟨t.data.take u.length, t.data.drop u.length, List.take_append_drop .., ?_⟩
  have hlowt : lowerL t.data = u ++ (lowerL w.data ++ v) := by
    rw [← huv]; simp [List.append_assoc]
  have hlow : lowerL (t.data.drop u.length) = lowerL w.data ++ v := by
    calc lowerL (t.data.drop u.length)
        = (lowerL t.data).drop u.length := by simp [lowerL, List.map_drop]
      _ = ((u ++ (lowerL w.data ++ v)).drop u.length) := by rw [hlowt]
      _ = lowerL w.data ++ v := List.drop_left _ _
  have hm : lowerL ((t.data.drop u.length).take w.data.length) = lowerL w.data := by
    calc lowerL ((t.data.drop u.length).take w.data.length)
        = (lowerL (t.data.drop u.length)).take w.data.length := by
          simp [lowerL, List.map_take]
      _ = (lowerL w.data ++ v).take w.data.length := by rw [hlow]
      _ = (lowerL w.data ++ v).take (lowerL w.data).length := by
          simp [lowerL]
      _ = lowerL w.data := List.take_left _ _
  rw [← List.take_append_drop w.data.length (t.data.drop u.length),
    matchCI_of_append w.data _ _ hm]
  simp

/-- A successful whole-word scan exhibits a matching suffix. -/
theorem wordScanAux_occurs (kw : List Char) :
    ∀ (l : List Char) (prev : Option Char), wordScanAux kw prev l = true →
      ∃ q s, q ++ s = l ∧ (matchCI kw s).isSome := by
  intro l
  induction l with
  | nil => intro prev h; simp [wordScanAux] at h
  | cons c cs ih =>
    intro prev h
    simp only [wordScanAux, Bool.or_eq_true, Bool.and_eq_true] at h
    rcases h with ⟨-, hb⟩ | h
    · refine ⟨[], c :: cs, rfl, ?_⟩
      unfold boundaryMatch at hb
      split at hb
      · rename_i heq; rw [heq]; simp
      · rename_i x xs heq; rw [heq]; simp
      · simp at hb
    · obtain ⟨q, s, hqs, hm⟩ := ih (some c) h
      exact ⟨c :: q, s, by simp [hqs], hm⟩

/-- A whole-word hit is in particular a case-insensitive occurrence. -/
theorem wordScan_ciOccurs (kw t : String) (h : wordScan kw t = true) :
    ciOccurs kw t = true := by
  obtain ⟨q, s, hqs, hm⟩ := wordScanAux_occurs kw.data t.data none h
  obtain ⟨r, hr⟩ := Option.isSome_iff_exists.mp hm
  exact ciOccurs_of_matchCI kw t q s r hqs hr

/-- The first whole-word keyword hit is a member that hits. -/
theorem firstWordKw_someE :
    ∀ (ks : List String) (t : String) (kw : String), firstWordKw ks t = some kw →
      kw ∈ ks ∧ wordScan kw t = true := by
  intro ks
  induction ks with
  | nil => intro t kw h; simp [firstWordKw] at h
  | cons k ks ih =>
    intro t kw h
    simp only [firstWordKw] at h
    split at h
    · rename_i hscan
      obtain rfl : k = kw := by simpa using h
      exact ⟨by simp, hscan⟩
    · obtain ⟨h1, h2⟩ := ih t kw h
      exact ⟨by simp [h1], h2⟩

/-! ## Lemmas about Python split -/

/-- The fuel argument of `splitOnLAux` is irrelevant once it covers the
input length. -/
theorem splitOnLAux_fuel (s0 : Char) (srest : List Char) :
    ∀ (fuel fuel2 : Nat) (l : List Char), l.length ≤ fuel → l.length ≤ fuel2 →
      splitOnLAux s0 srest fuel l = splitOnLAux s0 srest fuel2 l := by
  intro fuel
  induction fuel with
  | zero =>
    intro fuel2 l h1 h2
    have hl : l = [] := List.eq_nil_of_length_eq_zero (Nat.le_zero.mp h1)
    subst hl
    cases fuel2 <;> rfl
  | succ f ih =>
    intro fuel2 l h1 h2
    match l with
    | [] => cases fuel2 <;> rfl
    | c :: cs =>
      match fuel2 with
      | 0 => simp at h2
      | f2 + 1 =>
        simp only [splitOnLAux]
        by_cases hp : (s0 :: srest).isPrefixOf (c :: cs)
        · rw [if_pos hp, if_pos hp]
          have hlen : (cs.drop srest.length).length ≤ f := by
            simp only [List.length_cons] at h1
            simp only [List.length_drop]
            omega
          have hlen2 : (cs.drop srest.length).length ≤ f2 := by
            simp only [List.length_cons] at h2
            simp only [List.length_drop]
            omega
          rw [ih f2 _ hlen hlen2]
        · rw [if_neg hp, if_neg hp]
          have hlen : cs.length ≤ f := by simp only [List.length_cons] at h1; omega
          have hlen2 : cs.length ≤ f2 := by simp only [List.length_cons] at h2; omega
          rw [ih f2 cs hlen hlen2]

/-- A split is never the empty list of chunks. -/
theorem splitOnLAux_ne_nil (s0 : Char) (srest : List Char) :
    ∀ (fuel : Nat) (l : List Char), splitOnLAux s0 srest fuel l ≠ [] := by
  intro fuel l
  match fuel, l with
  | _, [] => cases fuel <;> simp [splitOnLAux]
  | 0, _ :: _ => simp [splitOnLAux]
  | f + 1, c :: cs =>
    simp only [splitOnLAux]
    by_cases hp : (s0 :: srest).isPrefixOf (c :: cs)
    · rw [if_pos hp]; simp
    · rw [if_neg hp]
      split <;> simp

/-- Splitting `a ++ " - " ++ b` where `a` contains no dash yields `a`
followed by the split of `b`: no separator occurrence can start inside
`a` or straddle its boundary, because every occurrence needs a dash one
position after its start. -/
theorem splitOnLAux_sep (b : List Char) :
    ∀ (a : List Char) (fuel : Nat), (a ++ ' ' :: '-' :: ' ' :: b).length ≤ fuel →
      '-' ∉ a →
      splitOnLAux ' ' ['-', ' '] fuel (a ++ ' ' :: '-' :: ' ' :: b) =
        a :: splitOnL ' ' ['-', ' '] b := by
  intro a
  induction a with
  | nil =>
    intro fuel hf _
    match fuel with
    | 0 => simp at hf
    | f + 1 =>
      simp only [List.nil_append, splitOnLAux]
      split
      · have hb : List.drop (['-', ' '] : List Char).length ('-' :: ' ' :: b) = b := rfl
        rw [hb, splitOnLAux_fuel ' ' ['-', ' '] f b.length b
          (by simp only [List.nil_append, List.length_cons] at hf; omega) (Nat.le_refl _)]
        rfl
      · rename_i hq
        exact absurd (by simp [List.isPrefixOf]) hq
  | cons c a' ih =>
    intro fuel hf hnd
    match fuel with
    | 0 => simp at hf
    | f + 1 =>
      have ha' : '-' ∉ a' := fun hm => hnd (by simp [hm])
      have hlen : (a' ++ ' ' :: '-' :: ' ' :: b).length ≤ f := by
        simp only [List.cons_append, List.length_cons] at hf
        omega
      simp only [List.cons_append, splitOnLAux]
      split
      · rename_i hp
        exfalso
        match a' with
        | [] => simp [List.isPrefixOf] at hp
        | d :: a'' =>
          have hd : d ≠ '-' := by
            intro hd; exact hnd (by simp [hd])
          have hbd : (('-' : Char) == d) = false := by simpa using (Ne.symm hd)
          simp [List.isPrefixOf, hbd] at hp
      · simp only [List.append_eq]
        rw [ih f hlen ha']

/-! ## Claim C6: company derived from the title -/

/-- C6 counterexample.  The spec says the company is the " - "-delimited
*trailing* segment.  On a title with two delimiters the code takes the
*second* segment (`parts[1]`), not the trailing one: for
"Engineer - Acme - NYC" it returns "Acme" while the trailing segment is
"NYC". -/
theorem claim_C6_counterexample :
    extract_company_from_title "Engineer - Acme - NYC" = "Acme" ∧
    companySpecTrailing "Engineer - Acme - NYC" = "NYC" ∧
    extract_company_from_title "Engineer - Acme - NYC" ≠
      companySpecTrailing "Engineer - Acme - NYC" := by
  refine ⟨rfl, rfl, ?_⟩
  decide

/-- C6 (amended): for every search-result title containing " - ", the
company field is the stripped *second* " - "-delimited segment — the text
between the first delimiter and the next one (or the end) — not the
trailing segment; titles without " - " give "Unknown Company" (by
definition).  Stated for an arbitrary title decomposed as
`a ++ " - " ++ b` whose head part contains no dash, so that the first
delimiter is the exhibited one; the second segment is then the head chunk
of the split of `b`. -/
theorem claim_C6_amended (a b : String) (h : '-' ∉ a.data) :
    extract_company_from_title (a ++ " - " ++ b) =
      pyStrip ((pySplit b " - ").headD "") := by
  have hdata : (a ++ " - " ++ b).data = a.data ++ ' ' :: '-' :: ' ' :: b.data := by
    rw [String.data_append, String.data_append]
    simp [List.append_assoc]
  have hsplit : splitOnL ' ' ['-', ' '] (a.data ++ ' ' :: '-' :: ' ' :: b.data) =
      a.data :: splitOnL ' ' ['-', ' '] b.data :=
    splitOnLAux_sep b.data a.data _ (Nat.le_refl _) h
  have hb : splitOnL ' ' ['-', ' '] b.data ≠ [] := splitOnLAux_ne_nil _ _ _ _
  match hx : splitOnL ' ' ['-', ' '] b.data with
  | [] => exact absurd hx hb
  | x :: xs =>
    have h1 : pySplit (a ++ " - " ++ b) " - " =
        String.mk a.data :: String.mk x :: xs.map String.mk := by
      show (splitOnL ' ' ['-', ' '] (a ++ " - " ++ b).data).map String.mk = _
      rw [hdata, hsplit, hx]
      rfl
    have h2 : pySplit b " - " = String.mk x :: xs.map String.mk := by
      show (splitOnL ' ' ['-', ' '] b.data).map String.mk = _
      rw [hx]
      rfl
    show (match pySplit (a ++ " - " ++ b) " - " with
      | _ :: p1 :: _ => pyStrip p1
      | _ => "Unknown Company") = _
    rw [h1, h2]
    rfl

/-- C6 witness at a concrete title. -/
theorem claim_C6_witness :
    ('-' ∉ "Engineer".data) ∧
    extract_company_from_title ("Engineer" ++ " - " ++ "Acme Corp - NYC") =
      pyStrip ((pySplit "Acme Corp - NYC" " - ").headD "") :=
  ⟨by decide, claim_C6_amended "Engineer" "Acme Corp - NYC" (by decide)⟩

/-! ## Claim C7: the salary extractor -/

/-- Salary pattern 1 can only match at a dollar sign. -/
theorem pDollarNum_head (s : List Char) (p : List Char × List Char)
    (h : pDollarNum s = some p) : ∃ rest, s = '$' :: rest := by
  match s with
  | [] => simp [pDollarNum] at h
  | c :: cs =>
    simp only [pDollarNum] at h
    split at h
    · rename_i hc; exact ⟨cs, by rw [hc]⟩
    · simp at h

/-- Suffix transitivity for parser rests. -/
theorem sfxTrans {r1 s r2 : List Char} (h1 : ∃ p, p ++ r1 = s) (h2 : ∃ p, p ++ r2 = r1) :
    ∃ p, p ++ r2 = s := by
  obtain ⟨p1, rfl⟩ := h1
  obtain ⟨p2, rfl⟩ := h2
  exact ⟨p1 ++ p2, by simp⟩

/-- A dropped list is a suffix of the original. -/
theorem drop_sfx (s : List Char) (n : Nat) : ∃ p, p ++ s.drop n = s :=
  ⟨s.take n, List.take_append_drop n s⟩

/-- The rest of `pCommaGroups` is a suffix of its input. -/
theorem pCommaGroups_sfx : ∀ s : List Char, ∃ p, p ++ (pCommaGroups s).2 = s := by
  intro s
  induction s using pCommaGroups.induct with
  | case1 a b c rest hd m r hrec ih =>
    have hval : pCommaGroups (',' :: a :: b :: c :: rest) = (',' :: a :: b :: c :: m, r) := by
      simp [pCommaGroups, hd, hrec]
    rw [hval]
    rw [hrec] at ih
    obtain ⟨p, hp⟩ := ih
    exact ⟨',' :: a :: b :: c :: p, by simp [hp]⟩
  | case2 a b c rest hd =>
    have hval : pCommaGroups (',' :: a :: b :: c :: rest) = ([], ',' :: a :: b :: c :: rest) := by
      simp [pCommaGroups, hd]
    rw [hval]
    exact ⟨[], rfl⟩
  | case3 s hs =>
    have hval : pCommaGroups s = ([], s) := by
      unfold pCommaGroups
      split
      · rename_i a b c rest
        exact absurd rfl (fun h => hs a b c rest (by exact h))
      · rfl
    rw [hval]
    exact ⟨[], rfl⟩

/-- The rest of `pDecPart` is a suffix of its input. -/
theorem pDecPart_sfx : ∀ s : List Char, ∃ p, p ++ (pDecPart s).2 = s := by
  intro s
  unfold pDecPart
  split
  · rename_i a b rest
    split
    · exact ⟨['.', a, b], rfl⟩
    · exact ⟨[], rfl⟩
  · exact ⟨[], rfl⟩

/-- The rest of `pNumber` is a suffix of its input. -/
theorem pNumber_sfx (s : List Char) (m r : List Char) (h : pNumber s = some (m, r)) :
    ∃ p, p ++ r = s := by
  simp only [pNumber] at h
  split at h
  · simp at h
  · rename_i d r1 hd
    obtain ⟨hm2, hr2⟩ : d ++ ((pCommaGroups r1).1 ++ (pDecPart (pCommaGroups r1).2).1) = m ∧
        (pDecPart (pCommaGroups r1).2).2 = r := by simpa using h
    have h1 : ∃ p, p ++ r1 = s := by
      simp only [pDigits13] at hd
      split at hd
      · simp at hd
      · have hdrop := (by simpa using hd :
          List.take 3 (List.takeWhile Char.isDigit s) = d ∧
            List.drop (3 ⊓ (List.takeWhile Char.isDigit s).length) s = r1)
        rw [← hdrop.2]
        exact drop_sfx s _
    have h2 : ∃ p, p ++ (pCommaGroups r1).2 = r1 := pCommaGroups_sfx r1
    have h3 : ∃ p, p ++ r = (pCommaGroups r1).2 := by
      rw [← hr2]; exact pDecPart_sfx _
    exact sfxTrans (sfxTrans h1 h2) h3

/-- With no dollar sign in the text, salary pattern 1 never matches. -/
theorem search_salary1_none (t : String) (h : '$' ∉ t.data) :
    searchSuffixes pSalary1At t.data = none := by
  cases heq : searchSuffixes pSalary1At t.data with
  | none => rfl
  | some g =>
    exfalso
    obtain ⟨q, s, hqs, hm⟩ := searchSuffixes_someE _ _ _ heq
    have hd : ∃ p, pDollarNum s = some p := by
      simp only [pSalary1At] at hm
      split at hm
      · simp at hm
      · rename_i m1 r1 hp; exact ⟨(m1, r1), hp⟩
    obtain ⟨p, hp⟩ := hd
    obtain ⟨rest, rfl⟩ := pDollarNum_head s p hp
    exact h (by rw [← hqs]; simp)

/-- With none of the currency codes occurring (case-insensitively),
salary pattern 2 never matches. -/
theorem search_salary2_none (t : String) (h : ∀ w ∈ salCodes, ciOccurs w t = false) :
    searchSuffixes pSalary2At t.data = none := by
  cases heq : searchSuffixes pSalary2At t.data with
  | none => rfl
  | some g =>
    exfalso
    obtain ⟨q, s, hqs, hm⟩ := searchSuffixes_someE _ _ _ heq
    have hc : ∃ x, pCodeNum s = some x := by
      simp only [pSalary2At] at hm
      split at hm
      · simp at hm
      · rename_i x1 x2 hx; exact ⟨(x1, x2), hx⟩
    obtain ⟨x, hx⟩ := hc
    have hf : ∃ g2 r2, matchFirstCI salCodes s = some (g2, r2) := by
      simp only [pCodeNum] at hx
      split at hx
      · simp at hx
      · rename_i mc r1 hmc; exact ⟨mc, r1, hmc⟩
    obtain ⟨g2, r2, hmf⟩ := hf
    obtain ⟨w, hw, hmci, -⟩ := matchFirstCI_someE salCodes s g2 r2 hmf
    have := ciOccurs_of_matchCI w t q s r2 hqs hmci
    rw [h w hw] at this
    exact Bool.false_ne_true this

/-- With none of the currency codes occurring, salary pattern 3 never
matches either: its code alternation sits after the number at a suffix of
the scanned position. -/
theorem search_salary3_none (t : String) (h : ∀ w ∈ salCodes, ciOccurs w t = false) :
    searchSuffixes pSalary3At t.data = none := by
  cases heq : searchSuffixes pSalary3At t.data with
  | none => rfl
  | some g =>
    exfalso
    obtain ⟨q, s, hqs, hm⟩ := searchSuffixes_someE _ _ _ heq
    have hc : ∃ x, pNumCode s = some x := by
      simp only [pSalary3At] at hm
      split at hm
      · simp at hm
      · rename_i x1 x2 hx; exact ⟨(x1, x2), hx⟩
    obtain ⟨x, hx⟩ := hc
    simp only [pNumCode] at hx
    split at hx
    · simp at hx
    · rename_i mn r1 hnum
      split at hx
      · rename_i mc r3 hmc
        obtain ⟨w, hw, hmci, -⟩ := matchFirstCI_someE salCodes (pWs r1).2 mc r3 hmc
        have hs1 : ∃ p, p ++ r1 = s := pNumber_sfx s mn r1 hnum
        have hs2 : ∃ p, p ++ (pWs r1).2 = r1 := ⟨r1.take (r1.takeWhile isPySpace).length,
          List.take_append_drop _ _⟩
        obtain ⟨p2, hp2⟩ := sfxTrans hs1 hs2
        obtain ⟨r4, hr4⟩ := Option.isSome_iff_exists.mp (by rw [hmci]; simp :
          (matchCI w.data (pWs r1).2).isSome)
        have := ciOccurs_of_matchCI w t (q ++ p2) (pWs r1).2 r4
          (by rw [List.append_assoc, hp2]; exact hqs) hr4
        rw [h w hw] at this
        exact Bool.false_ne_true this
      · simp at hx

/-- C7: the salary extractor returns exactly the matched substring on the
spec's example, and the sentinel on any text without a currency marker
(no dollar sign and no case-insensitive occurrence of a currency code:
each of the three patterns requires one). -/
theorem claim_C7 :
    extract_salary "$80,000 - $95,000 per year" = "$80,000 - $95,000 per year" ∧
    ∀ t : String, hasCurrencyMarker t = false →
      extract_salary t = "Salary not specified" := by
  constructor
  · rfl
  · intro t h
    simp only [hasCurrencyMarker, Bool.or_eq_false_iff] at h
    have h1 : '$' ∉ t.data := by simpa using h.1
    have h2 : ∀ w ∈ salCodes, ciOccurs w t = false := by
      have := h.2
      simp only [List.any_eq_false] at this
      intro w hw
      simpa using this w hw
    unfold extract_salary
    rw [search_salary1_none t h1, search_salary2_none t h2, search_salary3_none t h2]

/-- C7 witness: a concrete marker-free text. -/
theorem claim_C7_witness :
    hasCurrencyMarker "we pay in peanuts" = false ∧
    extract_salary "we pay in peanuts" = "Salary not specified" :=
  ⟨by decide, claim_C7.2 "we pay in peanuts" (by decide)⟩

/-! ## Claim C4: fit-scorer parse cascade -/

/-- C4: (1) a fenced block whose contents `json.loads` accepts yields
exactly the parsed value; (2) a reply with no JSON-looking content at all
— no "```json" fence and no `{...}` span — yields the fixed parse
fallback with `match_percentage = 50`; (3) a raised service call yields
the error fallback with `match_percentage = 0`. -/
theorem claim_C4 :
    (∀ (jd : JobDetails) (resume : String) (llm : String → Except Unit String)
        (content s : String) (v : JVal),
      llm (mkFitPrompt jd resume) = .ok content →
      fenceExtract content = some s →
      jsonLoads s = some v →
      analyze_job_fit jd resume llm = v) ∧
    (∀ (jd : JobDetails) (resume : String) (llm : String → Except Unit String)
        (content : String),
      llm (mkFitPrompt jd resume) = .ok content →
      occursB "```json".data content.data = false →
      braceSpan content = none →
      analyze_job_fit jd resume llm = fallbackParse) ∧
    (∀ (jd : JobDetails) (resume : String) (llm : String → Except Unit String),
      llm (mkFitPrompt jd resume) = .error () →
      analyze_job_fit jd resume llm = fallbackError) := by
  refine ⟨?_, ?_, ?_⟩
  · intro jd resume llm content s v h1 h2 h3
    unfold analyze_job_fit
    simp only [h1, h2, h3]
  · intro jd resume llm content h1 h2 h3
    have hfence : fenceExtract content = none := by
      unfold fenceExtract
      rw [findSubIdx_none _ _ h2]
    unfold analyze_job_fit
    simp only [h1, hfence, h3]
  · intro jd resume llm h1
    unfold analyze_job_fit
    simp only [h1]

/-- C4 witness: the three cascade outcomes at concrete replies. -/
theorem claim_C4_witness :
    (fenceExtract "```json\n\x7b\"match_percentage\": 85\x7d\n```" =
        some "\x7b\"match_percentage\": 85\x7d" ∧
      jsonLoads "\x7b\"match_percentage\": 85\x7d" =
        some (JVal.obj [("match_percentage", JVal.num 85)]) ∧
      analyze_job_fit jdSample "Python dev"
        (fun _ => .ok "```json\n\x7b\"match_percentage\": 85\x7d\n```") =
        JVal.obj [("match_percentage", JVal.num 85)]) ∧
    analyze_job_fit jdSample "Python dev" (fun _ => .ok "No structured reply.") =
      fallbackParse ∧
    analyze_job_fit jdSample "Python dev" (fun _ => .error ()) = fallbackError := by
  refine ⟨⟨rfl, rfl, ?_⟩, ?_, ?_⟩
  · exact claim_C4.1 jdSample "Python dev" _ _ _ _ rfl rfl rfl
  · exact claim_C4.2.1 jdSample "Python dev" _ _ rfl (by decide) rfl
  · exact claim_C4.2.2 jdSample "Python dev" _ rfl

/-! ## Claim C5: the search adapter -/

/-- C5: `search_jobs` is a total function of the provider outcome (never
raises by construction); a provider exception yields `[]`, and a provider
result list maps one-to-one, in provider order, so the output length is
bounded by the requested limit whenever the provider honours
`max_results`. -/
theorem claim_C5 :
    (∀ (env : Env) (query location : String) (n : Nat) (rs : List SearchResult),
      env.ddgsText (searchQuery query location) n = .ok rs →
      search_jobs env query location n = rs.map (mkListing location) ∧
      (rs.length ≤ n → (search_jobs env query location n).length ≤ n)) ∧
    (∀ (env : Env) (query location : String) (n : Nat) (e : Unit),
      env.ddgsText (searchQuery query location) n = .error e →
      search_jobs env query location n = []) := by
  constructor
  · intro env q loc n rs h
    have h1 : search_jobs env q loc n = rs.map (mkListing loc) := by
      unfold search_jobs; rw [h]
    refine ⟨h1, fun hlen => ?_⟩
    rw [h1]
    simpa using hlen
  · intro env q loc n e h
    unfold search_jobs; rw [h]

/-- C5 witness: a concrete provider with two ranked results and limit 5. -/
theorem claim_C5_witness :
    envBerlin.ddgsText (searchQuery "Data Scientist" "Berlin") 5 = .ok [resBerlin1, resBerlin2] ∧
    search_jobs envBerlin "Data Scientist" "Berlin" 5 =
      [resBerlin1, resBerlin2].map (mkListing "Berlin") ∧
    (search_jobs envBerlin "Data Scientist" "Berlin" 5).length ≤ 5 := by
  have h := claim_C5.1 envBerlin "Data Scientist" "Berlin" 5 [resBerlin1, resBerlin2] rfl
  exact ⟨rfl, h.1, h.2 (by decide)⟩

/-! ## Claim C9: match_percentage range -/

/-- C9 counterexample.  A reply whose fenced JSON parses successfully but
carries `match_percentage = 150` is returned verbatim: the scorer
performs no range validation, so the claimed 0–100 bound fails. -/
theorem claim_C9_counterexample :
    fenceExtract "```json\n\x7b\"match_percentage\": 150\x7d\n```" =
      some "\x7b\"match_percentage\": 150\x7d" ∧
    getField (analyze_job_fit jdSample "resume"
        (fun _ => .ok "```json\n\x7b\"match_percentage\": 150\x7d\n```"))
      "match_percentage" = some (JVal.num 150) ∧
    ¬ ((0 : Int) ≤ 150 ∧ (150 : Int) ≤ 100) := by
  exact ⟨rfl, rfl, by decide⟩

/-- C9 (amended): the analysis equals the parsed reply verbatim — the code
performs no validation or clamping of `match_percentage` — so the 0–100
range is guaranteed only for the built-in fallback objects, whose values
are 50 (parse failure) and 0 (service failure). -/
theorem claim_C9_amended :
    (∀ (jd : JobDetails) (resume : String) (llm : String → Except Unit String)
        (content s : String) (v : JVal),
      llm (mkFitPrompt jd resume) = .ok content →
      fenceExtract content = some s →
      jsonLoads s = some v →
      analyze_job_fit jd resume llm = v) ∧
    getField fallbackParse "match_percentage" = some (JVal.num 50) ∧
    getField fallbackError "match_percentage" = some (JVal.num 0) := by
  refine ⟨?_, rfl, rfl⟩
  intro jd resume llm content s v h1 h2 h3
  unfold analyze_job_fit
  simp only [h1, h2, h3]

/-- C9 witness: an in-range reply passes through unchanged. -/
theorem claim_C9_witness :
    jsonLoads "\x7b\"match_percentage\": 40\x7d" =
      some (JVal.obj [("match_percentage", JVal.num 40)]) ∧
    analyze_job_fit jdSample "resume"
        (fun _ => .ok "```json\n\x7b\"match_percentage\": 40\x7d\n```") =
      JVal.obj [("match_percentage", JVal.num 40)] :=
  ⟨rfl, claim_C9_amended.1 jdSample "resume" _ _ _ _ rfl rfl rfl⟩

/-! ## Claim C8: the job-type extractor -/

/-- A successful label-pattern match forces a case-insensitive
occurrence of "type" in the text: the pattern contains the literal
" type" right after the `Job|Employment` alternation. -/
theorem pJobTypeA_occurs (t : String) (q s g : List Char)
    (hq : q ++ s = t.data) (h : pJobTypeAAt s = some g) : ciOccurs "type" t = true := by
  simp only [pJobTypeAAt] at h
  split at h
  · simp at h
  · rename_i g1 r1 hmf
    split at h
    · simp at h
    · rename_i r2 hm2
      obtain ⟨w, hw, hmw, -⟩ := matchFirstCI_someE _ _ _ _ hmf
      obtain ⟨m1, hm1e, -⟩ := matchCI_decomp w.data s r1 hmw
      obtain ⟨m2, hm2e, hm2l⟩ := matchCI_decomp " type".data r1 r2 hm2
      show occursB (lowerL "type".data) (lowerL t.data) = true
      have ht : q ++ (m1 ++ (m2 ++ r2)) = t.data := by
        rw [hm2e, hm1e]; exact hq
      have hlow2 : List.map Char.toLower m2 = ' ' :: List.map Char.toLower "type".data := by
        show lowerL m2 = _
        rw [hm2l]; rfl
      have hdec : lowerL t.data =
          (lowerL (q ++ m1) ++ [' ']) ++ lowerL "type".data ++ lowerL r2 := by
        rw [← ht]
        simp only [lowerL, List.map_append]
        rw [hlow2]
        simp [List.append_assoc]
      exact (occursB_iff _ _).mpr ⟨lowerL (q ++ m1) ++ [' '], lowerL r2, hdec.symm⟩

/-- Without a "type" occurrence the label pattern never matches. -/
theorem searchA_none (t : String) (h : ciOccurs "type" t = false) :
    searchSuffixes pJobTypeAAt t.data = none := by
  cases heq : searchSuffixes pJobTypeAAt t.data with
  | none => rfl
  | some g =>
    exfalso
    obtain ⟨q, s, hqs, hm⟩ := searchSuffixes_someE _ _ _ heq
    have := pJobTypeA_occurs t q s g hqs hm
    rw [h] at this
    exact Bool.false_ne_true this

/-- A `Full[- ]Time`-style alternative that matches begins with its word. -/
theorem pFTWord_matchCI (w : String) (s g : List Char) (h : pFTWord w s = some g) :
    ∃ r, matchCI w.data s = some r := by
  simp only [pFTWord] at h
  split at h
  · simp at h
  · rename_i r1 hm
    exact ⟨r1, hm⟩

/-- Any successful canonical-term match forces a case-insensitive
occurrence of one of the seven leading words. -/
theorem pJobTypeB_branch (t : String) (q s g : List Char) (hq : q ++ s = t.data)
    (h : pJobTypeBAt s = some g) :
    ∃ w ∈ (["full", "part", "contract", "temporary", "freelance", "permanent",
        "remote"] : List String), ciOccurs w t = true := by
  simp only [pJobTypeBAt] at h
  split at h
  · rename_i g1 hfull
    obtain ⟨r, hm⟩ := pFTWord_matchCI "full" s g1 hfull
    exact ⟨"full", by simp, ciOccurs_of_matchCI "full" t q s r hq hm⟩
  · split at h
    · rename_i g1 hpart
      obtain ⟨r, hm⟩ := pFTWord_matchCI "part" s g1 hpart
      exact ⟨"part", by simp, ciOccurs_of_matchCI "part" t q s r hq hm⟩
    · cases hmf : matchFirstCI ["contract", "temporary", "freelance", "permanent",
        "remote"] s with
      | none => rw [hmf] at h; simp at h
      | some p =>
        obtain ⟨w, hw, hm, -⟩ := matchFirstCI_someE _ _ _ _ hmf
        refine ⟨w, ?_, ciOccurs_of_matchCI w t q s p.2 hq hm⟩
        fin_cases hw <;> simp

/-- With the six other canonical words absent, a successful
canonical-term match can only be the `Remote` alternative, and the group
is the six input characters at the match position. -/
theorem pJobTypeB_remote (t : String) (q s g : List Char) (hq : q ++ s = t.data)
    (h : pJobTypeBAt s = some g)
    (hno : ∀ w ∈ (["full", "part", "contract", "temporary", "freelance",
        "permanent"] : List String), ciOccurs w t = false) :
    ∃ r, matchCI "remote".data s = some r ∧ g = s.take 6 := by
  simp only [pJobTypeBAt] at h
  split at h
  · rename_i g1 hfull
    exfalso
    obtain ⟨r, hm⟩ := pFTWord_matchCI "full" s g1 hfull
    have := ciOccurs_of_matchCI "full" t q s r hq hm
    rw [hno "full" (by simp)] at this
    exact Bool.false_ne_true this
  · split at h
    · rename_i g1 hpart
      exfalso
      obtain ⟨r, hm⟩ := pFTWord_matchCI "part" s g1 hpart
      have := ciOccurs_of_matchCI "part" t q s r hq hm
      rw [hno "part" (by simp)] at this
      exact Bool.false_ne_true this
    · cases hmf : matchFirstCI ["contract", "temporary", "freelance", "permanent",
        "remote"] s with
      | none => rw [hmf] at h; simp at h
      | some p =>
        rw [hmf] at h
        obtain rfl : p.1 = g := by simpa using h
        obtain ⟨w, hw, hm, hg⟩ := matchFirstCI_someE _ _ _ _ hmf
        have hex : w = "contract" ∨ w = "temporary" ∨ w = "freelance" ∨
            w = "permanent" ∨ w = "remote" := by simpa using hw
        rcases hex with rfl | rfl | rfl | rfl | rfl
        · exfalso
          have hocc := ciOccurs_of_matchCI "contract" t q s p.2 hq hm
          rw [hno "contract" (by simp)] at hocc
          exact Bool.false_ne_true hocc
        · exfalso
          have hocc := ciOccurs_of_matchCI "temporary" t q s p.2 hq hm
          rw [hno "temporary" (by simp)] at hocc
          exact Bool.false_ne_true hocc
        · exfalso
          have hocc := ciOccurs_of_matchCI "freelance" t q s p.2 hq hm
          rw [hno "freelance" (by simp)] at hocc
          exact Bool.false_ne_true hocc
        · exfalso
          have hocc := ciOccurs_of_matchCI "permanent" t q s p.2 hq hm
          rw [hno "permanent" (by simp)] at hocc
          exact Bool.false_ne_true hocc
        · exact ⟨p.2, hm, by rw [hg]; rfl⟩

/-- C8 counterexample.  "Full-Time Remote" contains the standalone word
"Remote" and no "Employment Type:"/"Job Type:" label, yet the extractor
returns "Full-Time": the canonical-term alternation is consulted before
any preference for "Remote", and its leftmost match wins. -/
theorem claim_C8_counterexample :
    occursB "Remote".data "Full-Time Remote".data = true ∧
    ciOccurs "type" "Full-Time Remote" = false ∧
    extract_job_type "Full-Time Remote" = "Full-Time" ∧
    extract_job_type "Full-Time Remote" ≠ "Remote" := by
  exact ⟨by decide, by decide, rfl, by decide⟩

/-- C8 (amended).  (1) On an input with no "type" occurrence, none of the
other six canonical words, some occurrence of "remote", every
case-insensitive occurrence of which is spelled exactly "Remote", the
extractor returns "Remote" — the matched input text, which the claim's
title-casing only describes when the input already carries it.  (2) On an
input containing none of the label word "type", the canonical words, or
the whole-word keywords (all covered by the nine listed markers), it
returns "Not specified". -/
theorem claim_C8_amended :
    (∀ t : String,
      ciOccurs "type" t = false →
      (∀ w ∈ (["full", "part", "contract", "temporary", "freelance",
          "permanent"] : List String), ciOccurs w t = false) →
      ciOccurs "remote" t = true →
      (∀ s ∈ t.data.tails, (matchCI "remote".data s).isSome →
        "Remote".data.isPrefixOf s = true) →
      extract_job_type t = "Remote") ∧
    (∀ t : String,
      (∀ w ∈ (["type", "full", "part", "contract", "temporary", "freelance",
          "permanent", "remote", "hybrid"] : List String), ciOccurs w t = false) →
      extract_job_type t = "Not specified") := by
  constructor
  · intro t h1 h2 h3 h4
    have hA : searchSuffixes pJobTypeAAt t.data = none := searchA_none t h1
    obtain ⟨q0, s0, hq0, hm0⟩ := matchCI_isSome_of_occurs "remote" t h3
    have hBsome : (searchSuffixes pJobTypeBAt t.data).isSome := by
      apply searchSuffixes_isSome _ t.data q0 s0 hq0
      simp only [pJobTypeBAt]
      split
      · simp
      · split
        · simp
        · have hfm := matchFirstCI_isSome_of_mem
            ["contract", "temporary", "freelance", "permanent", "remote"] "remote" s0
            (by simp) hm0
          cases hx : matchFirstCI ["contract", "temporary", "freelance", "permanent",
              "remote"] s0 with
          | none => rw [hx] at hfm; simp at hfm
          | some p => simp
    obtain ⟨g, hg⟩ := Option.isSome_iff_exists.mp hBsome
    obtain ⟨q, s, hqs, hmB⟩ := searchSuffixes_someE _ _ _ hg
    obtain ⟨r, hmr, hgtake⟩ := pJobTypeB_remote t q s g hqs hmB h2
    have hs_tails : s ∈ t.data.tails := (List.mem_tails s t.data).mpr ⟨q, hqs⟩
    have hpre := h4 s hs_tails (by rw [hmr]; simp)
    obtain ⟨r2, hr2⟩ := List.isPrefixOf_iff_prefix.mp hpre
    have hgR : g = "Remote".data := by
      rw [hgtake, ← hr2]
      have h6 : ("Remote".data).length = 6 := rfl
      rw [← h6, List.take_left]
    unfold extract_job_type
    rw [hA, hg, hgR]
    rfl
  · intro t h
    have hA : searchSuffixes pJobTypeAAt t.data = none :=
      searchA_none t (h "type" (by simp))
    have hB : searchSuffixes pJobTypeBAt t.data = none := by
      cases heq : searchSuffixes pJobTypeBAt t.data with
      | none => rfl
      | some g =>
        exfalso
        obtain ⟨q, s, hqs, hm⟩ := searchSuffixes_someE _ _ _ heq
        obtain ⟨w, hw, hocc⟩ := pJobTypeB_branch t q s g hqs hm
        have hw9 : w ∈ (["type", "full", "part", "contract", "temporary", "freelance",
            "permanent", "remote", "hybrid"] : List String) := by
          fin_cases hw <;> simp
        rw [h w hw9] at hocc
        exact Bool.false_ne_true hocc
    have hK : firstWordKw job_type_keywords t = none := by
      cases heq : firstWordKw job_type_keywords t with
      | none => rfl
      | some kw =>
        exfalso
        obtain ⟨hkmem, hscan⟩ := firstWordKw_someE _ _ _ heq
        have hocc := wordScan_ciOccurs kw t hscan
        simp only [job_type_keywords] at hkmem
        have hex : kw = "full-time" ∨ kw = "part-time" ∨ kw = "contract" ∨
            kw = "temporary" ∨ kw = "freelance" ∨ kw = "permanent" ∨
            kw = "remote" ∨ kw = "hybrid" := by simpa using hkmem
        rcases hex with rfl | rfl | rfl | rfl | rfl | rfl | rfl | rfl
        · have h2 := ciOccurs_mono "full-time" "full" t ['-', 't', 'i', 'm', 'e']
            (by decide) hocc
          rw [h "full" (by simp)] at h2
          exact Bool.false_ne_true h2
        · have h2 := ciOccurs_mono "part-time" "part" t ['-', 't', 'i', 'm', 'e']
            (by decide) hocc
          rw [h "part" (by simp)] at h2
          exact Bool.false_ne_true h2
        · rw [h "contract" (by simp)] at hocc
          exact Bool.false_ne_true hocc
        · rw [h "temporary" (by simp)] at hocc
          exact Bool.false_ne_true hocc
        · rw [h "freelance" (by simp)] at hocc
          exact Bool.false_ne_true hocc
        · rw [h "permanent" (by simp)] at hocc
          exact Bool.false_ne_true hocc
        · rw [h "remote" (by simp)] at hocc
          exact Bool.false_ne_true hocc
        · rw [h "hybrid" (by simp)] at hocc
          exact Bool.false_ne_true hocc
    unfold extract_job_type
    rw [hA, hB, hK]

/-- C8 witness: concrete inputs for both amended behaviours. -/
theorem claim_C8_witness :
    extract_job_type "Position: Remote" = "Remote" ∧
    extract_job_type "a good role" = "Not specified" :=
  ⟨claim_C8_amended.1 "Position: Remote" (by decide) (by decide) (by decide) (by decide),
   claim_C8_amended.2 "a good role" (by decide)⟩

/-! ## Claim C10: the description extractor never returns empty -/

/-- The final fallback of the description cascade makes the result
non-empty whatever the earlier stages produced. -/
theorem ifEmptyFallback_ne (x : String) (l : List Char) :
    (if x = "" then String.mk l ++ "..." else x) ≠ "" := by
  split
  · intro h
    have hd := congrArg String.data h
    simp [String.data_append] at hd
  · assumption

/-- The `extract_job_description` always returns a non-empty string. -/
theorem ejd_ne_empty (soup : Soup) (text_content : String) :
    extract_job_description soup text_content ≠ "" := by
  unfold extract_job_description
  exact ifEmptyFallback_ne _ _

/-- The per-result recovery loop never changes a non-empty description. -/
theorem recoveryLoop_desc_eq (env : Env) :
    ∀ (rs : List SearchResult) (d : String) (r : List String), d ≠ "" →
      (recoveryLoop env rs d r).1 = d := by
  intro rs
  induction rs with
  | nil => intro d r h; rfl
  | cons res rest ih =>
    intro d r h
    simp only [recoveryLoop]
    split
    · exact ih d r h
    · rename_i page hp
      rw [if_neg h]
      generalize (if r = [] then extract_job_requirements page.soup page.text_content
        else r) = r2
      split
      · rfl
      · exact ih d r2 h

/-- The secondary recovery never changes a non-empty description. -/
theorem secondaryRecovery_desc (env : Env) (page : Page) (d : String) (r : List String)
    (h : d ≠ "") : (secondaryRecovery env page d r).1 = d := by
  simp only [secondaryRecovery]
  split
  · rfl
  · split
    · rfl
    · exact recoveryLoop_desc_eq env _ d r h

/-- After primary extraction and recovery the description is the primary
extractor's output, unchanged. -/
theorem descReqs_desc (env : Env) (page : Page) :
    (descReqsAfterRecovery env page).1 =
      extract_job_description page.soup page.text_content := by
  simp only [descReqsAfterRecovery]
  split
  · exact secondaryRecovery_desc env page _ _ (ejd_ne_empty _ _)
  · rfl

/-- C10: `extract_job_description` returns a non-empty string on every
input (the final fallback appends an ellipsis to the first 500
characters), the description reaching the URL-synthesis test in
`get_job_details` is therefore never empty — that branch is dead code —
and in fact recovery never changes the primary description at all. -/
theorem claim_C10 :
    (∀ (soup : Soup) (text_content : String),
      extract_job_description soup text_content ≠ "") ∧
    (∀ (env : Env) (page : Page), (descReqsAfterRecovery env page).1 ≠ "") ∧
    (∀ (env : Env) (page : Page), (descReqsAfterRecovery env page).1 =
      extract_job_description page.soup page.text_content) :=
  ⟨ejd_ne_empty,
   fun env page => by rw [descReqs_desc]; exact ejd_ne_empty _ _,
   descReqs_desc⟩

/-! ## Claim C2: when the secondary recovery runs -/

/-- C2 counterexample.  On `envRec` the primary description is non-empty
while the primary requirements are empty — by the claim the recovery
should not run — yet the returned requirements are the ones extracted
from the alternate page found by the secondary search, so the recovery
observably did run: the source guard is a disjunction, not a
conjunction. -/
theorem claim_C2_counterexample :
    extract_job_description pageMainRec.soup pageMainRec.text_content ≠ "" ∧
    extract_job_requirements pageMainRec.soup pageMainRec.text_content = [] ∧
    (get_job_details envRec urlMainRec).requirements =
      ["Five years of Python experience"] ∧
    extract_job_requirements pageAltRec.soup pageAltRec.text_content =
      ["Five years of Python experience"] := by
  exact ⟨by decide, rfl, rfl, rfl⟩

/-- C2 (amended): the secondary recovery is entered exactly when the
primary description is empty OR the primary requirements list is empty —
equivalently, since the description extractor never returns empty,
exactly when the requirements list is empty; and the per-result loop
returns immediately (values unchanged) once both are non-empty. -/
theorem claim_C2_amended :
    (∀ (soup : Soup) (text_content : String),
      (recoveryGuard (extract_job_description soup text_content)
          (extract_job_requirements soup text_content) = true ↔
        extract_job_requirements soup text_content = [])) ∧
    (∀ (env : Env) (rs : List SearchResult) (d : String) (r : List String),
      d ≠ "" → r ≠ [] → recoveryLoop env rs d r = (d, r)) := by
  constructor
  · intro soup text_content
    unfold recoveryGuard
    simp [ejd_ne_empty soup text_content]
  · intro env rs
    induction rs with
    | nil => intro d r h1 h2; rfl
    | cons res rest ih =>
      intro d r h1 h2
      simp only [recoveryLoop]
      split
      · exact ih d r h1 h2
      · rw [if_neg h1, if_neg h2, if_pos ⟨h1, h2⟩]

/-- C2 witness: the guard equivalence at a concrete page, and the loop
returning unchanged values on concrete non-empty inputs. -/
theorem claim_C2_witness :
    (recoveryGuard (extract_job_description soupEmpty "hello")
        (extract_job_requirements soupEmpty "hello") = true ↔
      extract_job_requirements soupEmpty "hello" = []) ∧
    recoveryLoop envBlank [resBerlin1] "d" ["r"] = ("d", ["r"]) :=
  ⟨claim_C2_amended.1 soupEmpty "hello",
   claim_C2_amended.2 envBlank [resBerlin1] "d" ["r"] (by decide) (by decide)⟩

/-! ## Claim C1: the job record is fully populated -/

/-- Strings with a non-empty right factor are non-empty. -/
theorem strAppend_ne_right (s t : String) (h : t ≠ "") : s ++ t ≠ "" := by
  intro hc
  apply h
  have hd := congrArg String.data hc
  rw [String.data_append] at hd
  have h2 := (List.append_eq_nil.mp hd).2
  cases t
  exact congrArg String.mk h2

/-- Strings made from a non-empty character list are non-empty. -/
theorem strMk_ne_empty (g : List Char) (h : g ≠ []) : String.mk g ≠ "" := by
  intro hc
  apply h
  have := congrArg String.data hc
  simpa using this

/-- A list with a non-empty left factor is non-empty. -/
theorem appendL_ne_nil {g r : List Char} (h : g ≠ []) : g ++ r ≠ [] := by
  cases g
  · exact absurd rfl h
  · simp

/-- Salary pattern 1 groups start with the dollar sign. -/
theorem pDollarNum_fst (s : List Char) (m r : List Char) (h : pDollarNum s = some (m, r)) :
    ∃ xs, m = '$' :: xs := by
  match s with
  | [] => simp [pDollarNum] at h
  | c :: rest =>
    simp only [pDollarNum] at h
    split at h
    · cases hp : pNumber rest with
      | none => rw [hp] at h; simp at h
      | some p =>
        rw [hp] at h
        obtain ⟨hm, -⟩ : '$' :: p.1 = m ∧ p.2 = r := by simpa using h
        exact ⟨p.1, hm.symm⟩
    · simp at h

/-- Salary pattern 1 groups are non-empty. -/
theorem pSalary1At_ne_nil (s g : List Char) (h : pSalary1At s = some g) : g ≠ [] := by
  simp only [pSalary1At] at h
  split at h
  · simp at h
  · rename_i m1 r1 hp
    obtain ⟨xs, rfl⟩ := pDollarNum_fst s m1 r1 hp
    split at h
    · obtain rfl : _ = g := by exact (by simpa using h : _ = g)
      simp
    · obtain rfl : _ = g := by exact (by simpa using h : _ = g)
      simp

/-- Alternation groups are non-empty when every word is. -/
theorem matchFirstCI_fst_ne_nil (ws : List String) (s g r : List Char)
    (h : matchFirstCI ws s = some (g, r)) (hws : ∀ w ∈ ws, w.data ≠ []) : g ≠ [] := by
  obtain ⟨w, hw, hm, hg⟩ := matchFirstCI_someE ws s g r h
  have hsne : s ≠ [] := by
    intro hs
    subst hs
    match hwd : w.data with
    | [] => exact hws w hw hwd
    | c :: cs => rw [hwd] at hm; simp [matchCI] at hm
  have hlen : w.data.length ≠ 0 := by
    intro h0
    exact hws w hw (List.eq_nil_of_length_eq_zero h0)
  obtain ⟨k, hk⟩ := Nat.exists_eq_succ_of_ne_zero hlen
  match s, hsne with
  | c :: cs, _ =>
    rw [hg, hk]
    simp

/-- The currency codes are non-empty words. -/
theorem salCodes_ne_nil : ∀ w ∈ salCodes, w.data ≠ [] := by decide

/-- Salary pattern 2 groups are non-empty. -/
theorem pSalary2At_ne_nil (s g : List Char) (h : pSalary2At s = some g) : g ≠ [] := by
  simp only [pSalary2At] at h
  split at h
  · simp at h
  · rename_i m1 r1 hp
    have hm1 : m1 ≠ [] := by
      simp only [pCodeNum] at hp
      split at hp
      · simp at hp
      · rename_i mc r0 hmc
        split at hp
        · rename_i mn r3 hmn
          obtain ⟨hme, -⟩ : mc ++ (r0.takeWhile isPySpace ++ mn) = m1 ∧ r3 = r1 := by
            simpa [pWs] using hp
          rw [← hme]
          exact appendL_ne_nil (matchFirstCI_fst_ne_nil salCodes s mc r0 hmc salCodes_ne_nil)
        · simp at hp
    split at h
    · split at h
      · obtain rfl : _ = g := by exact (by simpa using h : _ = g)
        exact appendL_ne_nil hm1
      · obtain rfl : m1 = g := by simpa using h
        exact hm1
    · obtain rfl : m1 = g := by simpa using h
      exact hm1

/-- The `pNumber` groups are non-empty (they start with a digit run). -/
theorem pNumber_fst_ne_nil (s m r : List Char) (h : pNumber s = some (m, r)) : m ≠ [] := by
  simp only [pNumber] at h
  split at h
  · simp at h
  · rename_i d r1 hd
    obtain ⟨hme, -⟩ : d ++ ((pCommaGroups r1).1 ++ (pDecPart (pCommaGroups r1).2).1) = m ∧
        (pDecPart (pCommaGroups r1).2).2 = r := by simpa using h
    have hdne : d ≠ [] := by
      simp only [pDigits13] at hd
      split at hd
      · simp at hd
      · rename_i hne
        obtain ⟨hde, -⟩ := (by simpa using hd :
          List.take 3 (List.takeWhile Char.isDigit s) = d ∧
            List.drop (3 ⊓ (List.takeWhile Char.isDigit s).length) s = r1)
        rw [← hde]
        simpa using hne
    rw [← hme]
    exact appendL_ne_nil hdne

/-- Salary pattern 3 groups are non-empty. -/
theorem pSalary3At_ne_nil (s g : List Char) (h : pSalary3At s = some g) : g ≠ [] := by
  simp only [pSalary3At] at h
  split at h
  · simp at h
  · rename_i m1 r1 hp
    have hm1 : m1 ≠ [] := by
      simp only [pNumCode] at hp
      split at hp
      · simp at hp
      · rename_i mn r0 hmn
        split at hp
        · rename_i mc r3 hmc
          obtain ⟨hme, -⟩ : mn ++ (r0.takeWhile isPySpace ++ mc) = m1 ∧ r3 = r1 := by
            simpa [pWs] using hp
          rw [← hme]
          exact appendL_ne_nil (pNumber_fst_ne_nil s mn r0 hmn)
        · simp at hp
    split at h
    · split at h
      · obtain rfl : _ = g := by exact (by simpa using h : _ = g)
        exact appendL_ne_nil hm1
      · obtain rfl : m1 = g := by simpa using h
        exact hm1
    · obtain rfl : m1 = g := by simpa using h
      exact hm1

/-- The salary extractor never returns the empty string. -/
theorem extract_salary_ne_empty (t : String) : extract_salary t ≠ "" := by
  unfold extract_salary
  split
  · rename_i g h
    obtain ⟨q, s, -, hm⟩ := searchSuffixes_someE _ _ _ h
    exact strMk_ne_empty g (pSalary1At_ne_nil s g hm)
  · split
    · rename_i g h
      obtain ⟨q, s, -, hm⟩ := searchSuffixes_someE _ _ _ h
      exact strMk_ne_empty g (pSalary2At_ne_nil s g hm)
    · split
      · rename_i g h
        obtain ⟨q, s, -, hm⟩ := searchSuffixes_someE _ _ _ h
        exact strMk_ne_empty g (pSalary3At_ne_nil s g hm)
      · decide

/-- The application-link loop preserves non-emptiness of the default. -/
theorem applyLoop_ne (soup : Soup) :
    ∀ (sels : List String) (d : String), d ≠ "" → applyLoop soup sels d ≠ "" := by
  intro sels
  induction sels with
  | nil => intro d h; exact h
  | cons sel rest ih =>
    intro d h
    simp only [applyLoop]
    split
    · rename_i hr hh
      split
      · assumption
      · exact ih d h
    · exact ih d h

/-- A non-empty list takes to a non-empty list under a positive count. -/
theorem take10_ne_nil {α : Type} (l : List α) (h : l ≠ []) : l.take 10 ≠ [] := by
  cases l
  · exact absurd rfl h
  · simp

/-- The keyword fallback inside `get_job_details` never returns an empty
list. -/
theorem keywordFallbackReqs_ne_nil (url text_content : String) :
    keywordFallbackReqs url text_content ≠ [] := by
  simp only [keywordFallbackReqs]
  split
  · exact take10_ne_nil _ (by assumption)
  · simp [genericRequirements]

/-- The success-path record of `get_job_details`. -/
theorem gjd_success (env : Env) (url : String) (page : Page)
    (hm : mainFetch env url = some page) :
    get_job_details env url =
      { description := if (descReqsAfterRecovery env page).1 = "" then urlDescSynth url
          else (descReqsAfterRecovery env page).1
        requirements := if (descReqsAfterRecovery env page).2 = [] then
            keywordFallbackReqs url page.text_content
          else (descReqsAfterRecovery env page).2
        salary := extract_salary page.text_content
        job_type := extract_job_type page.text_content
        benefits := extract_benefits page.text_content
        application_link := extract_application_link page.soup url
        full_text := String.mk (page.text_content.data.take 5000) } := by
  unfold get_job_details
  rw [hm]

/-- C1 counterexample.  A successful fetch of a page with blank text
yields a record whose benefits list is empty: `extract_benefits` finds
neither a labelled section nor any benefit keyword and
`get_job_details` installs its output unchanged, so "every field … a
non-empty value or non-empty list" fails. -/
theorem claim_C1_counterexample :
    mainFetch envBlank urlBlank = some pageBlank ∧
    (get_job_details envBlank urlBlank).benefits = [] := by
  exact ⟨rfl, rfl⟩

/-- C1 (amended): for every environment and non-empty URL, the
description, requirements, salary and application link of the returned
record are non-empty, and on the success path the full text is at most
5000 characters.  The benefits list may be empty (see the
counterexample), and the job type may be empty in the corner where a
"Job/Employment Type" label is followed only by whitespace before a
terminator; the failure-path full text embeds the URL verbatim, so its
bound holds on the success path. -/
theorem claim_C1_amended (env : Env) (url : String) (h : url ≠ "") :
    (get_job_details env url).description ≠ "" ∧
    (get_job_details env url).requirements ≠ [] ∧
    (get_job_details env url).salary ≠ "" ∧
    (get_job_details env url).application_link ≠ "" ∧
    (∀ page, mainFetch env url = some page →
      (get_job_details env url).full_text.length ≤ 5000) := by
  cases hm : mainFetch env url with
  | none =>
    have hgjd : get_job_details env url = fallbackJobDetails url := by
      unfold get_job_details; rw [hm]
    rw [hgjd]
    refine ⟨?_, ?_, ?_, ?_, ?_⟩
    · exact strAppend_ne_right _ _ (by decide)
    · exact List.cons_ne_nil _ _
    · exact (by decide :
        ("Please refer to the original job listing for salary information" : String) ≠ "")
    · exact h
    · intro page hpage
      simp at hpage
  | some page =>
    rw [gjd_success env url page hm]
    have hdr : (descReqsAfterRecovery env page).1 ≠ "" := by
      rw [descReqs_desc]
      exact ejd_ne_empty _ _
    refine ⟨?_, ?_, ?_, ?_, ?_⟩
    · show (if (descReqsAfterRecovery env page).1 = "" then urlDescSynth url
        else (descReqsAfterRecovery env page).1) ≠ ""
      rw [if_neg hdr]
      exact hdr
    · show (if (descReqsAfterRecovery env page).2 = [] then
          keywordFallbackReqs url page.text_content
        else (descReqsAfterRecovery env page).2) ≠ []
      split
      · exact keywordFallbackReqs_ne_nil _ _
      · assumption
    · exact extract_salary_ne_empty _
    · exact applyLoop_ne _ _ _ h
    · intro page2 hpage2
      show (String.mk (page.text_content.data.take 5000)).length ≤ 5000
      show (page.text_content.data.take 5000).length ≤ 5000
      exact List.length_take_le _ _

/-- C1 witness at the concrete blank-page environment. -/
theorem claim_C1_witness :
    urlBlank ≠ "" ∧
    ((get_job_details envBlank urlBlank).description ≠ "" ∧
     (get_job_details envBlank urlBlank).requirements ≠ [] ∧
     (get_job_details envBlank urlBlank).salary ≠ "" ∧
     (get_job_details envBlank urlBlank).application_link ≠ "" ∧
     (∀ page, mainFetch envBlank urlBlank = some page →
       (get_job_details envBlank urlBlank).full_text.length ≤ 5000)) :=
  ⟨by decide, claim_C1_amended envBlank urlBlank (by decide)⟩

/-! ## Claim C3: deduplication and caps -/

/-- Elements of the deduplicated list come from the original. -/
theorem dedupFirstAux_mem :
    ∀ (fuel : Nat) (l : List String) (x : String), x ∈ dedupFirstAux fuel l → x ∈ l := by
  intro fuel
  induction fuel with
  | zero =>
    intro l x h
    match l with
    | [] => simpa [dedupFirstAux] using h
    | a :: l => simp [dedupFirstAux] at h
  | succ f ih =>
    intro l x h
    match l with
    | [] => simpa [dedupFirstAux] using h
    | a :: l =>
      simp only [dedupFirstAux, List.mem_cons] at h
      rcases h with rfl | h
      · simp
      · have := ih _ x h
        simp only [List.mem_filter] at this
        simp [this.1]

/-- The `dict.fromkeys` deduplication produces a duplicate-free list. -/
theorem dedupFirstAux_nodup : ∀ (fuel : Nat) (l : List String),
    (dedupFirstAux fuel l).Nodup := by
  intro fuel
  induction fuel with
  | zero =>
    intro l
    match l with
    | [] => simp [dedupFirstAux]
    | a :: l => simp [dedupFirstAux]
  | succ f ih =>
    intro l
    match l with
    | [] => simp [dedupFirstAux]
    | a :: l =>
      simp only [dedupFirstAux, List.nodup_cons]
      refine ⟨?_, ih _⟩
      intro hmem
      have := dedupFirstAux_mem f _ a hmem
      simp [List.mem_filter] at this

/-- See `dedupFirstAux_nodup`. -/
theorem dedupFirst_nodup (l : List String) : (dedupFirst l).Nodup :=
  dedupFirstAux_nodup l.length l

/-- The requirements list carried through the recovery loop keeps the
10-entry bound. -/
theorem recoveryLoop_reqs_le (env : Env) :
    ∀ (rs : List SearchResult) (d : String) (r : List String), r.length ≤ 10 →
      ((recoveryLoop env rs d r).2).length ≤ 10 := by
  intro rs
  induction rs with
  | nil => intro d r h; exact h
  | cons res rest ih =>
    intro d r h
    simp only [recoveryLoop]
    split
    · exact ih d r h
    · rename_i page hp
      have hr2 : (if r = [] then extract_job_requirements page.soup page.text_content
          else r).length ≤ 10 := by
        split
        · show ((dedupFirst _).take 10).length ≤ 10
          exact List.length_take_le _ _
        · exact h
      generalize hgen : (if r = [] then extract_job_requirements page.soup page.text_content
        else r) = r2 at hr2 ⊢
      generalize (if d = "" then extract_job_description page.soup page.text_content
        else d) = d2
      split
      · exact hr2
      · exact ih d2 r2 hr2

/-- The requirements after primary extraction and recovery keep the
10-entry bound. -/
theorem descReqs_reqs_le (env : Env) (page : Page) :
    ((descReqsAfterRecovery env page).2).length ≤ 10 := by
  have hejr : ∀ (soup : Soup) (t : String),
      (extract_job_requirements soup t).length ≤ 10 := by
    intro soup t
    show ((dedupFirst _).take 10).length ≤ 10
    exact List.length_take_le _ _
  simp only [descReqsAfterRecovery]
  split
  · simp only [secondaryRecovery]
    split
    · exact hejr page.soup page.text_content
    · split
      · exact hejr page.soup page.text_content
      · exact recoveryLoop_reqs_le env _ _ _ (hejr page.soup page.text_content)
  · exact hejr page.soup page.text_content

/-- The keyword fallback caps at 10 entries. -/
theorem keywordFallbackReqs_le (url text_content : String) :
    (keywordFallbackReqs url text_content).length ≤ 10 := by
  simp only [keywordFallbackReqs]
  split
  · exact List.length_take_le _ _
  · simp [genericRequirements]

/-- C3 counterexample.  A page whose text repeats one keyword-anchored
sentence twice drives `get_job_details` into its keyword fallback, which
caps at 10 entries but does not deduplicate: the record's requirements
list contains the same entry twice. -/
theorem claim_C3_counterexample :
    (get_job_details envDupReq urlDupReq).requirements =
      ["required abc.", "required abc."] ∧
    ¬ (get_job_details envDupReq urlDupReq).requirements.Nodup := by
  have h1 : (get_job_details envDupReq urlDupReq).requirements =
      ["required abc.", "required abc."] := rfl
  refine ⟨h1, ?_⟩
  rw [h1]
  decide

/-- C3 (amended): `extract_job_requirements` and `extract_benefits`
always return duplicate-free lists of at most 10 and 8 entries; the
keyword-anchored fallback inside `get_job_details` keeps the 10-entry
cap but does not deduplicate (see the counterexample); and every record
`get_job_details` returns keeps both length caps. -/
theorem claim_C3_amended :
    (∀ (soup : Soup) (text_content : String),
      (extract_job_requirements soup text_content).Nodup ∧
      (extract_job_requirements soup text_content).length ≤ 10) ∧
    (∀ text_content : String,
      (extract_benefits text_content).Nodup ∧
      (extract_benefits text_content).length ≤ 8) ∧
    (∀ (url text_content : String),
      (keywordFallbackReqs url text_content).length ≤ 10) ∧
    (∀ (env : Env) (url : String),
      (get_job_details env url).requirements.length ≤ 10 ∧
      (get_job_details env url).benefits.length ≤ 8) := by
  refine ⟨?_, ?_, keywordFallbackReqs_le, ?_⟩
  · intro soup text_content
    constructor
    · show ((dedupFirst _).take 10).Nodup
      exact (List.take_sublist _ _).nodup (dedupFirst_nodup _)
    · show ((dedupFirst _).take 10).length ≤ 10
      exact List.length_take_le _ _
  · intro text_content
    constructor
    · show ((dedupFirst _).take 8).Nodup
      exact (List.take_sublist _ _).nodup (dedupFirst_nodup _)
    · show ((dedupFirst _).take 8).length ≤ 8
      exact List.length_take_le _ _
  · intro env url
    cases hm : mainFetch env url with
    | none =>
      have hgjd : get_job_details env url = fallbackJobDetails url := by
        unfold get_job_details; rw [hm]
      rw [hgjd]
      exact ⟨by simp [fallbackJobDetails], by simp [fallbackJobDetails]⟩
    | some page =>
      rw [gjd_success env url page hm]
      constructor
      · show (if (descReqsAfterRecovery env page).2 = [] then
            keywordFallbackReqs url page.text_content
          else (descReqsAfterRecovery env page).2).length ≤ 10
        split
        · exact keywordFallbackReqs_le _ _
        · exact descReqs_reqs_le env page
      · show ((dedupFirst _).take 8).length ≤ 8
        exact List.length_take_le _ _
